import Mathlib

/-!
# The request-forwarding core of the codis proxy

A shallow embedding of `pkg/proxy/request.go` (the request queue `RequestChan`),
`pkg/proxy/forward.go` (the synchronous and the semi-asynchronous forwarding
strategies) and `pkg/proxy/router/taskrunner.go` (the handlers of the task
runner), followed by the properties proved about them.

Conventions of the embedding.

* A Go method that mutates its receiver becomes a function returning the new
  receiver next to the returned value.
* Every method body of `RequestChan` runs with `c.lock` held and every `process`
  call of a forwarder runs with the slot read lock held, so each body is taken
  as one atomic step; the mutexes themselves are not represented.
* A call can end in three ways, see `Outcome`: it returns, it panics, or it is
  parked on a condition variable or wait group and does not return.
* Go slices are represented by the list of their visible elements (index `0`
  up to `len`); capacity and aliasing of backing arrays are not represented.
-/

namespace Codis

/-! ## Basic data -/

/-- A byte string (`[]byte`); every element stands for one byte. -/
abbrev Bytes := List Nat

/-- How a call ends. -/
inductive Outcome (α : Type) where
  /-- the call returned `a` -/
  | ret (a : α)
  /-- the call raised a Go panic (explicit `panic(...)`, nil dereference, division
  by zero, index out of range) -/
  | panics
  /-- the call is parked (`cond.Wait()`, `WaitGroup.Wait()`) and has not returned -/
  | wait
  deriving DecidableEq, Repr

namespace redis

/-- Modelled from the spec: `redis.RespType` is declared outside the sources at
hand; section 6 of the specification lists the five kinds of RESP frame
(simple string, error, integer, bulk string, array). -/
inductive RespType where
  | string
  | error
  | int
  | bulkBytes
  | array
  deriving DecidableEq, Repr

/-- Modelled from the spec: `redis.Resp` is declared outside the sources at
hand. The forwarder reads its fields `Type`, `Value` and `Array`. -/
inductive Resp where
  | mk (type : RespType) (value : Bytes) (array : List Resp)

/-- Field `Type`. -/
def Resp.type : Resp → RespType
  | .mk t _ _ => t

/-- Field `Value`. -/
def Resp.Value : Resp → Bytes
  | .mk _ v _ => v

/-- Field `Array`. -/
def Resp.Array : Resp → List Resp
  | .mk _ _ a => a

/-- Modelled from the spec: `resp.IsError()`, the frame is an error frame. -/
def Resp.IsError (r : Resp) : Bool := r.type = RespType.error

/-- Modelled from the spec: `resp.IsInt()`, the frame is an integer frame. -/
def Resp.IsInt (r : Resp) : Bool := r.type = RespType.int

/-- Modelled from the spec: `resp.IsArray()`, the frame is an array frame. -/
def Resp.IsArray (r : Resp) : Bool := r.type = RespType.array

/-- Modelled from the spec: `redis.NewBulkBytes(b)`, a bulk string frame holding `b`. -/
def NewBulkBytes (b : Bytes) : Resp := .mk RespType.bulkBytes b []

end redis

/-- Error values returned by the forwarder. The three sentinels are package
variables; the `bad...` constructors stand for the `fmt.Errorf` values of
`forward.go` and carry the arguments of their format string. -/
inductive Error where
  /-- `ErrSlotIsNotReady`: "slot is not ready, may be offline" -/
  | ErrSlotIsNotReady
  /-- `ErrRespIsRequired`: "resp is required" -/
  | ErrRespIsRequired
  /-- `ErrRequestIsBroken` (declared outside the sources at hand) -/
  | ErrRequestIsBroken
  /-- "bad slotsmgrt resp: %s" with `resp.Value` -/
  | badSlotsmgrtResp (value : Bytes)
  /-- "bad slotsmgrt resp: should be integer, but got %s" with `resp.Type` -/
  | badSlotsmgrtType (t : redis.RespType)
  /-- "bad slotsmgrt-exec-wrapper resp: %s" with `resp.Value` -/
  | badWrapperResp (value : Bytes)
  /-- "bad slotsmgrt-exec-wrapper resp: array.len = %d" -/
  | badWrapperArrayLen (n : Nat)
  /-- "bad slotsmgrt-exec-wrapper resp: type(array[0]) = %s, len(array[0].value) = %d" -/
  | badWrapperTag (t : redis.RespType) (n : Nat)
  /-- "bad slotsmgrt-exec-wrapper resp: [%s] %s" with the values of both elements -/
  | badWrapperCode (tag : Bytes) (payload : Bytes)
  /-- "bad slotsmgrt-exec-wrapper resp: should be integer, but got %s" -/
  | badWrapperType (t : redis.RespType)
  /-- any other error value, such as an I/O error stored by a backend connection -/
  | other (code : Nat)
  deriving DecidableEq, Repr

/-- Modelled from the spec: `OpFlag` is declared outside the sources at hand;
the specification describes it as flag bits of which the forwarder reads only
the read-only predicate `IsReadOnly()`. -/
structure OpFlag where
  IsReadOnly : Bool
  deriving DecidableEq, Repr

/-- The cell `atomic2.Bool` behind `Request.Broken`. Other goroutines write it,
so it is given by the value each successive read observes. -/
abbrev AtomicBool := Nat → Bool

/-- The fields of `Request` read or written by the queue and the forwarder.
`ptr` is the address of the struct (`unsafe.Pointer(r)`); `Group` names the slot
whose `refs` wait group it points to. -/
structure Request where
  ptr : Nat
  Multi : List redis.Resp
  Group : Option Int
  Broken : Option AtomicBool
  OpFlag : OpFlag
  Database : Int
  UnixNano : Int
  Resp : Option redis.Resp
  Err : Option Error

/-- The value `r.IsBroken()` returns at the `t`-th read of the flag. -/
def Request.IsBroken (r : Request) (t : Nat) : Bool :=
  match r.Broken with
  | none => false
  | some b => b t

def GOLDEN_RATIO_PRIME_32 : Nat := 0x9e370001

/-- The seed of a request: 32-bit wrapping arithmetic on the low words of the
timestamp and of the address, then the upper 16 bits. -/
def Request.Seed16 (r : Request) : Nat :=
  let h32 := ((r.UnixNano % 2 ^ 32).toNat + r.ptr % 2 ^ 32) % 2 ^ 32
  let h32 := (h32 * GOLDEN_RATIO_PRIME_32) % 2 ^ 32
  h32 / 2 ^ 16

/-! ## The request queue (`request.go`) -/

/-- The queue. Elements have type `*Request`: `none` is the nil pointer.
`signals` and `broadcasts` count the calls of `cond.Signal()` and
`cond.Broadcast()`. -/
structure RequestChan where
  data : List (Option Request)
  buff : List (Option Request)
  waits : Int
  closed : Bool
  signals : Nat
  broadcasts : Nat

def DefaultRequestChanBuffer : Int := 128

def NewRequestChanBuffer (n : Int) : RequestChan :=
  let n := if n ≤ 0 then DefaultRequestChanBuffer else n
  { data := [], buff := List.replicate n.toNat none, waits := 0, closed := false,
    signals := 0, broadcasts := 0 }

def NewRequestChan : RequestChan := NewRequestChanBuffer 0

def RequestChan.Close (c : RequestChan) : RequestChan :=
  if !c.closed then
    { c with closed := true, broadcasts := c.broadcasts + 1 }
  else c

def RequestChan.Buffered (c : RequestChan) : Nat := c.data.length

def RequestChan.lockedPushBack (c : RequestChan) (r : Option Request) :
    RequestChan × Outcome Nat :=
  if c.closed then
    (c, .panics)
  else
    let c := if c.waits ≠ 0 then { c with signals := c.signals + 1 } else c
    let c := { c with data := c.data ++ [r] }
    (c, .ret c.data.length)

/-- One pass through `lockedPopFront` up to its return or up to `cond.Wait()`.
On the empty open queue the active buffer is reset to `c.buff[:0]` and the
caller is parked. The write `c.data[0] = nil` clears a slot that is no longer
visible through `c.data[1:]`. -/
def RequestChan.lockedPopFront (c : RequestChan) :
    RequestChan × Outcome (Option Request × Bool) :=
  match c.data with
  | [] =>
    if c.closed then
      (c, .ret (none, false))
    else
      ({ c with data := c.buff.take 0, waits := c.waits + 1 }, .wait)
  | r :: rest =>
    ({ c with data := rest }, .ret (r, true))

/-- A parked `lockedPopFront` is woken: it leaves `cond.Wait()`, decrements
`waits` and runs the loop test again. -/
def RequestChan.lockedPopFrontWake (c : RequestChan) :
    RequestChan × Outcome (Option Request × Bool) :=
  RequestChan.lockedPopFront { c with waits := c.waits - 1 }

def RequestChan.PushBack (c : RequestChan) (r : Option Request) :
    RequestChan × Outcome Nat :=
  c.lockedPushBack r

def RequestChan.PopFront (c : RequestChan) :
    RequestChan × Outcome (Option Request × Bool) :=
  c.lockedPopFront

def RequestChan.IsEmpty (c : RequestChan) : Bool := c.Buffered = 0

/-- The loop of `PopFrontAll`, one iteration per unit of `fuel`; `none` when the
fuel runs out before the loop ends. The callback may carry state `σ`. -/
def RequestChan.PopFrontAll {σ : Type}
    (onRequest : σ → Option Request → σ × Option Error) :
    Nat → RequestChan → σ → Option (RequestChan × σ × Outcome (Option Error))
  | 0, _, _ => none
  | fuel + 1, c, s =>
    match c.PopFront with
    | (c1, .ret (r, true)) =>
      match onRequest s r with
      | (s1, some err) => some (c1, s1, .ret (some err))
      | (s1, none) => RequestChan.PopFrontAll onRequest fuel c1 s1
    | (c1, .ret (_, false)) => some (c1, s, .ret none)
    | (c1, .panics) => some (c1, s, .panics)
    | (c1, .wait) => some (c1, s, .wait)

/-! ## The forwarder (`forward.go`) -/

/-- A backend connection (`*BackendConn`), named by an identifier. -/
structure BackendConn where
  id : Nat
  deriving DecidableEq, Repr

/-- Modelled from the spec: `sharedBackendConn` (the backend pool) is declared
outside the sources at hand. The forwarder reads `host` and `port` and calls the
selection `BackendConn(database, seed, must)`, whose result may be nil (`none`). -/
structure sharedBackendConn where
  host : Bytes
  port : Bytes
  BackendConn : Int → Nat → Bool → Option BackendConn

/-- Modelled from the spec: `Slot` is declared outside the sources at hand. The
routing record read by the forwarder: `backend` and `migrate` stand for
`s.backend.bc` and `s.migrate.bc` (nil is `none`). The wait group `s.refs` is
mutable and lives in `State`. -/
structure Slot where
  id : Int
  backend : Option sharedBackendConn
  migrate : Option sharedBackendConn
  replicaGroups : List (List sharedBackendConn)

/-- What a forwarder does to the outside, in order. -/
inductive Event where
  /-- a migrate sub-request with frames `multi` was pushed to connection `bc` of
  the migration source -/
  | migrate (bc : BackendConn) (multi : List redis.Resp)
  /-- the client request, as it is at that moment, was pushed to `bc` -/
  | forward (bc : BackendConn) (r : Request)
  /-- `time.Sleep(delay)`, in nanoseconds -/
  | sleep (delay : Nat)

/-- The mutable data a `Forward` call works on: the client request `r` (its
fields `Group` and `Resp` are written), the counter of the wait group `s.refs`,
and the events so far, oldest first. -/
structure State where
  r : Request
  refs : Nat
  trace : List Event

/-- What the backend connection has stored into a sub-request `m` when
`m.Batch.Wait()` returns: `m.Err` and `m.Resp`. -/
structure Completion where
  Err : Option Error
  Resp : Option redis.Resp

/-- The bytes of "SLOTSMGRTTAGONE". -/
def SLOTSMGRTTAGONE : Bytes := [83, 76, 79, 84, 83, 77, 71, 82, 84, 84, 65, 71, 79, 78, 69]

/-- The bytes of "SLOTSMGRT-EXEC-WRAPPER". -/
def SLOTSMGRT_EXEC_WRAPPER : Bytes :=
  [83, 76, 79, 84, 83, 77, 71, 82, 84, 45, 69, 88, 69, 67, 45, 87, 82, 65, 80, 80, 69, 82]

/-- The bytes of "3000". -/
def timeout3000 : Bytes := [51, 48, 48, 48]

/-- Lines 185-199 of `slotsmgrt`: the error returned for a completed sub-request. -/
def forwardHelper.slotsmgrtResult (m : Completion) : Option Error :=
  match m.Err with
  | some err => some err
  | none =>
    match m.Resp with
    | none => some Error.ErrRespIsRequired
    | some resp =>
      if resp.IsError then some (Error.badSlotsmgrtResp resp.Value)
      else if resp.IsInt then none
      else some (Error.badSlotsmgrtType resp.type)

/-- The synchronous migrate step. `done` is the completion of the sub-request,
`none` when the backend never completes it. Pushing to a nil connection and
reading `host` of a nil pool dereference nil. -/
def forwardHelper.slotsmgrt (s : Slot) (hkey : Bytes) (database : Int) (seed : Nat)
    (done : Option Completion) (st : State) : Outcome (Option Error) × State :=
  match s.backend, s.migrate with
  | some backend, some migrate =>
    let multi := [redis.NewBulkBytes SLOTSMGRTTAGONE,
      redis.NewBulkBytes backend.host,
      redis.NewBulkBytes backend.port,
      redis.NewBulkBytes timeout3000,
      redis.NewBulkBytes hkey]
    match migrate.BackendConn database seed true with
    | none => (.panics, st)
    | some bc =>
      let st := { st with trace := st.trace ++ [Event.migrate bc multi] }
      match done with
      | none => (.wait, st)
      | some m => (.ret (forwardHelper.slotsmgrtResult m), st)
  | _, _ => (.panics, st)

/-- Lines 216-247 of `slotsmgrtExecWrapper`: the triple `(resp, moved, err)`
returned for a completed sub-request. The subtraction `Value[0] - '0'` is on
bytes and wraps modulo 256. -/
def forwardHelper.slotsmgrtExecWrapperResult (m : Completion) :
    Option redis.Resp × Bool × Option Error :=
  match m.Err with
  | some err => (none, false, some err)
  | none =>
    match m.Resp with
    | none => (none, false, some Error.ErrRespIsRequired)
    | some resp =>
      if resp.IsError then (none, false, some (Error.badWrapperResp resp.Value))
      else if resp.IsArray then
        match resp.Array with
        | [a0, a1] =>
          match a0.IsInt, a0.Value with
          | true, [b] =>
            match (b + 256 - 48) % 256 with
            | 0 => (none, true, none)
            | 1 => (none, false, none)
            | 2 => (some a1, false, none)
            | _ => (none, false, some (Error.badWrapperCode a0.Value a1.Value))
          | _, _ => (none, false, some (Error.badWrapperTag a0.type a0.Value.length))
        | _ => (none, false, some (Error.badWrapperArrayLen resp.Array.length))
      else (none, false, some (Error.badWrapperType resp.type))

/-- The wrapper call of the semi-asynchronous strategy. -/
def forwardHelper.slotsmgrtExecWrapper (s : Slot) (hkey : Bytes) (database : Int)
    (seed : Nat) (multi : List redis.Resp) (done : Option Completion) (st : State) :
    Outcome (Option redis.Resp × Bool × Option Error) × State :=
  match s.migrate with
  | some migrate =>
    let multi := [redis.NewBulkBytes SLOTSMGRT_EXEC_WRAPPER, redis.NewBulkBytes hkey] ++ multi
    match migrate.BackendConn database seed true with
    | none => (.panics, st)
    | some bc =>
      let st := { st with trace := st.trace ++ [Event.migrate bc multi] }
      match done with
      | none => (.wait, st)
      | some m => (.ret (forwardHelper.slotsmgrtExecWrapperResult m), st)
  | none => (.panics, st)

/-- The inner loop of `forward2` over one replica group: `k` iterations are
left and `i` is the index variable. `i` and `seed` are `uint`; `seed` is below
`2 ^ 16`, so `i + 1` does not wrap. A group of length zero would divide by zero
and an index outside the group would be out of range. -/
def forwardHelper.forward2Probe (group : List sharedBackendConn) (database : Int)
    (seed : Nat) : Nat → Nat → Outcome (Option BackendConn)
  | _, 0 => .ret none
  | i, k + 1 =>
    if group.length = 0 then .panics
    else
      let i := (i + 1) % group.length
      match group[i]? with
      | none => .panics
      | some p =>
        match p.BackendConn database seed false with
        | some bc => .ret (some bc)
        | none => forwardHelper.forward2Probe group database seed i k

/-- The outer loop of `forward2` over the replica groups. -/
def forwardHelper.forward2Groups (database : Int) (seed : Nat) :
    List (List sharedBackendConn) → Outcome (Option BackendConn)
  | [] => .ret none
  | group :: rest =>
    match forwardHelper.forward2Probe group database seed seed group.length with
    | .ret (some bc) => .ret (some bc)
    | .ret none => forwardHelper.forward2Groups database seed rest
    | .panics => .panics
    | .wait => .wait

/-- The master connection of the primary pool, `s.backend.bc.BackendConn(database, seed, true)`;
a nil pool has no connection. -/
def forwardHelper.master (s : Slot) (database : Int) (seed : Nat) : Option BackendConn :=
  match s.backend with
  | none => none
  | some p => p.BackendConn database seed true

/-- Target selection. -/
def forwardHelper.forward2 (s : Slot) (r : Request) : Outcome (Option BackendConn) :=
  let database := r.Database
  let seed := r.Seed16
  if s.migrate.isNone && r.OpFlag.IsReadOnly && s.replicaGroups.length ≠ 0 then
    match forwardHelper.forward2Groups database seed s.replicaGroups with
    | .ret (some bc) => .ret (some bc)
    | .ret none => .ret (forwardHelper.master s database seed)
    | .panics => .panics
    | .wait => .wait
  else
    .ret (forwardHelper.master s database seed)

/-- The routing decision of the synchronous strategy on the request `st.r`. -/
def forwardSync.process (s : Slot) (hkey : Bytes) (done : Option Completion) (st : State) :
    Outcome (Option BackendConn × Option Error) × State :=
  if s.backend.isNone then
    (.ret (none, some Error.ErrSlotIsNotReady), st)
  else
    let step :=
      if s.migrate.isSome && hkey.length ≠ 0 then
        forwardHelper.slotsmgrt s hkey st.r.Database st.r.Seed16 done st
      else (.ret none, st)
    match step with
    | (.ret (some err), st) => (.ret (none, some err), st)
    | (.ret none, st) =>
      let st := { st with r := { st.r with Group := some s.id }, refs := st.refs + 1 }
      match forwardHelper.forward2 s st.r with
      | .ret bc => (.ret (bc, none), st)
      | .panics => (.panics, st)
      | .wait => (.wait, st)
    | (.panics, st) => (.panics, st)
    | (.wait, st) => (.wait, st)

/-- The synchronous strategy: `Forward(s, r, hkey)` with `r` held in `st.r`.
`bc.PushBack(r)` on a nil `bc` dereferences nil. -/
def forwardSync.Forward (s : Slot) (hkey : Bytes) (done : Option Completion) (st : State) :
    Outcome (Option Error) × State :=
  match forwardSync.process s hkey done st with
  | (.ret (_, some err), st) => (.ret (some err), st)
  | (.ret (some bc, none), st) =>
    (.ret none, { st with trace := st.trace ++ [Event.forward bc st.r] })
  | (.ret (none, none), st) => (.panics, st)
  | (.panics, st) => (.panics, st)
  | (.wait, st) => (.wait, st)

/-- The routing decision of the semi-asynchronous strategy: `(bc, retry, err)`. -/
def forwardSemiAsync.process (s : Slot) (hkey : Bytes) (done : Option Completion)
    (st : State) : Outcome (Option BackendConn × Bool × Option Error) × State :=
  if s.backend.isNone then
    (.ret (none, false, some Error.ErrSlotIsNotReady), st)
  else
    let select := fun (st : State) =>
      let st := { st with r := { st.r with Group := some s.id }, refs := st.refs + 1 }
      match forwardHelper.forward2 s st.r with
      | .ret bc => ((.ret (bc, false, none) :
          Outcome (Option BackendConn × Bool × Option Error)), st)
      | .panics => (.panics, st)
      | .wait => (.wait, st)
    if s.migrate.isSome && hkey.length ≠ 0 then
      match forwardHelper.slotsmgrtExecWrapper s hkey st.r.Database st.r.Seed16
          st.r.Multi done st with
      | (.ret (_, _, some err), st) => (.ret (none, false, some err), st)
      | (.ret (some resp, false, none), st) =>
        (.ret (none, false, none), { st with r := { st.r with Resp := some resp } })
      | (.ret (none, false, none), st) => (.ret (none, true, none), st)
      | (.ret (_, true, none), st) => select st
      | (.panics, st) => (.panics, st)
      | (.wait, st) => (.wait, st)
    else select st

def time.Millisecond : Nat := 1000000

/-- The back-off delay chosen in iteration `loop`, in nanoseconds. -/
def forwardSemiAsync.delay (loop : Nat) : Nat :=
  if loop < 5 then 0
  else if loop < 20 then time.Millisecond * loop
  else time.Millisecond * 20

/-- How one iteration of the loop of `forwardSemiAsync.Forward` ends. -/
inductive forwardSemiAsync.Iteration where
  /-- the call is over -/
  | done (o : Outcome (Option Error)) (st : State)
  /-- `loop += 1` and the next iteration starts -/
  | again (st : State)

/-- One iteration of the loop of `forwardSemiAsync.Forward`. The broken flag is
read once per retry, so iteration `loop` makes the read number `loop`. -/
def forwardSemiAsync.iteration (s : Slot) (hkey : Bytes) (done : Option Completion)
    (loop : Nat) (st : State) : forwardSemiAsync.Iteration :=
  match forwardSemiAsync.process s hkey done st with
  | (.ret (_, _, some err), st) => .done (.ret (some err)) st
  | (.ret (some bc, false, none), st) =>
    .done (.ret none) { st with trace := st.trace ++ [Event.forward bc st.r] }
  | (.ret (none, false, none), st) => .done (.ret none) st
  | (.ret (_, true, none), st) =>
    let st := { st with trace := st.trace ++ [Event.sleep (forwardSemiAsync.delay loop)] }
    if st.r.IsBroken loop then .done (.ret (some Error.ErrRequestIsBroken)) st
    else .again st
  | (.panics, st) => .done .panics st
  | (.wait, st) => .done .wait st

/-- The semi-asynchronous strategy, started at iteration `loop`. The list holds
the completions of the successive wrapper sub-requests; each iteration that
asks for a retry has used one. When the list is used up the next wrapper call
stays parked in `m.Batch.Wait()`. -/
def forwardSemiAsync.Forward (s : Slot) (hkey : Bytes) :
    List Completion → Nat → State → Outcome (Option Error) × State
  | [], loop, st =>
    match forwardSemiAsync.iteration s hkey none loop st with
    | .done o st => (o, st)
    | .again st => (.wait, st)
  | m :: ms, loop, st =>
    match forwardSemiAsync.iteration s hkey (some m) loop st with
    | .done o st => (o, st)
    | .again st => forwardSemiAsync.Forward s hkey ms (loop + 1) st

/-- The inner loop of `forward2` once more, returning next to its result the
indices at which `group[i]` was evaluated, in order. -/
def forwardHelper.forward2ProbeTrace (group : List sharedBackendConn) (database : Int)
    (seed : Nat) : Nat → Nat → Outcome (Option BackendConn) × List Nat
  | _, 0 => (.ret none, [])
  | i, k + 1 =>
    if group.length = 0 then (.panics, [])
    else
      let i := (i + 1) % group.length
      match group[i]? with
      | none => (.panics, [i])
      | some p =>
        match p.BackendConn database seed false with
        | some bc => (.ret (some bc), [i])
        | none =>
          let rest := forwardHelper.forward2ProbeTrace group database seed i k
          (rest.1, i :: rest.2)

/-! ## The task runner (`router/taskrunner.go`) -/

/-- Modelled from the spec: `parser.Resp` is declared outside the sources at
hand; it is a decoded RESP frame, as `redis.Resp`. -/
abbrev parser.Resp := redis.Resp

/-- Modelled from the spec: `PipelineRequest` is declared outside the sources
at hand. The task runner reads `req`, the frame to write, and `backQ`, the
channel on which the response is handed back (named by an identifier); `ptr` is
the address of the struct. -/
structure PipelineRequest where
  ptr : Nat
  req : parser.Resp
  backQ : Nat

/-- Modelled from the spec: `PipelineResponse` is declared outside the sources
at hand; the task runner builds it from `ctx`, `resp` and `err`. -/
structure PipelineResponse where
  ctx : PipelineRequest
  resp : Option parser.Resp
  err : Option Error

/-- A value received from `tr.out` (an `interface{}`): an error, a decoded
frame, or anything else. -/
inductive OutValue where
  | error (e : Error)
  | resp (p : parser.Resp)
  | other

/-- What the connection `tr.c` answers to the calls of `dowrite`: the errors of
`r.req.Bytes()`, of `tr.c.Write(b)` and of `tr.c.Flush()`. -/
structure ConnResult where
  bytes : Option Error
  write : Option Error
  flush : Option Error

/-- The fields of `taskRunner` the handlers work on. `tasks` is the list
`tr.tasks`, front first. `written` logs the requests handed to `tr.c.Write` and
`backQ` logs every send on a back queue, as channel and value, oldest first; a
send is taken not to block. -/
structure taskRunner where
  tasks : List PipelineRequest
  latest : Nat
  closed : Bool
  written : List PipelineRequest
  backQ : List (Nat × PipelineResponse)

def taskRunner.dowrite (tr : taskRunner) (r : PipelineRequest) (flush : Bool)
    (io : ConnResult) : taskRunner × Option Error :=
  match io.bytes with
  | some err => (tr, some err)
  | none =>
    let tr := { tr with written := tr.written ++ [r] }
    match io.write with
    | some err => (tr, some err)
    | none => if flush then (tr, io.flush) else (tr, none)

/-- `handleTask(r, flush)` at time `now`. With `r == nil` and no flush the nil
request is pushed and `dowrite` dereferences it. -/
def taskRunner.handleTask (tr : taskRunner) (r : Option PipelineRequest) (flush : Bool)
    (now : Nat) (io : ConnResult) : taskRunner × Outcome (Option Error) :=
  match r, flush with
  | none, true => (tr, .ret io.flush)
  | none, false => (tr, .panics)
  | some r, _ =>
    let tr := { tr with tasks := tr.tasks ++ [r], latest := now }
    let res := tr.dowrite r flush io
    (res.1, .ret res.2)

/-- The loop of `cleanupOutgoingTasks`: the list holds the element `e` and its
successors. `tr.tasks.Remove(e)` removes the front element, which `e` is. -/
def taskRunner.cleanupOutgoingTasksLoop (err : Option Error) :
    List PipelineRequest → taskRunner → taskRunner
  | [], tr => tr
  | req :: next, tr =>
    taskRunner.cleanupOutgoingTasksLoop err next
      { tr with
        backQ := tr.backQ ++ [(req.backQ, { ctx := req, resp := none, err := err })]
        tasks := tr.tasks.tail }

def taskRunner.cleanupOutgoingTasks (tr : taskRunner) (err : Option Error) : taskRunner :=
  taskRunner.cleanupOutgoingTasksLoop err tr.tasks tr

/-- `handleResponse(e)`. On the empty list `tr.tasks.Front()` is nil and
`e.Value` dereferences it. -/
def taskRunner.handleResponse (tr : taskRunner) (e : OutValue) :
    taskRunner × Outcome (Option Error) :=
  match e with
  | OutValue.error err => (tr, .ret (some err))
  | OutValue.resp resp =>
    match tr.tasks with
    | [] => (tr, .panics)
    | req :: _ =>
      ({ tr with
          backQ := tr.backQ ++ [(req.backQ, { ctx := req, resp := some resp, err := none })]
          tasks := tr.tasks.tail },
        .ret none)
  | OutValue.other => (tr, .ret none)

/-! ## Runs of the queue, used to state its properties -/

/-- One call on the queue: `PushBack(r)`, `PopFront()`, or the wake-up of a
`PopFront` that was parked. -/
inductive QueueOp where
  | push (r : Option Request)
  | pop
  | wake

/-- What one call of a run gave. -/
inductive QueueResult where
  | push (o : Outcome Nat)
  | pop (o : Outcome (Option Request × Bool))

/-- Runs the calls in order and collects what each of them gave. -/
def RequestChan.run : RequestChan → List QueueOp → RequestChan × List QueueResult
  | c, [] => (c, [])
  | c, QueueOp.push r :: ops =>
    let rest := RequestChan.run (c.PushBack r).1 ops
    (rest.1, QueueResult.push (c.PushBack r).2 :: rest.2)
  | c, QueueOp.pop :: ops =>
    let rest := RequestChan.run c.PopFront.1 ops
    (rest.1, QueueResult.pop c.PopFront.2 :: rest.2)
  | c, QueueOp.wake :: ops =>
    let rest := RequestChan.run c.lockedPopFrontWake.1 ops
    (rest.1, QueueResult.pop c.lockedPopFrontWake.2 :: rest.2)

/-- The requests pushed by a run, in order. -/
def pushedOf : List QueueOp → List (Option Request)
  | [] => []
  | QueueOp.push r :: ops => r :: pushedOf ops
  | _ :: ops => pushedOf ops

/-- The number of `PopFront` calls of a run. -/
def popCount : List QueueOp → Nat
  | [] => 0
  | QueueOp.pop :: ops => popCount ops + 1
  | _ :: ops => popCount ops

/-- The requests a run handed out: the `r` of every `(r, true)` returned. -/
def delivered : List QueueResult → List (Option Request)
  | [] => []
  | QueueResult.pop (Outcome.ret (r, true)) :: os => r :: delivered os
  | _ :: os => delivered os

/-- What the `PopFront` calls and wake-ups of a run gave, in order. -/
def popOutcomes : List QueueResult → List (Outcome (Option Request × Bool))
  | [] => []
  | QueueResult.pop o :: os => o :: popOutcomes os
  | _ :: os => popOutcomes os

/-- What the `PopFront` calls and wake-ups of a run give on a first-in,
first-out queue that holds `q` at the start: a call or wake-up that finds the
queue empty stays parked, any other returns the oldest request with `true` and
removes it; a push appends at the tail. -/
def fifoOutcomes : List (Option Request) → List QueueOp →
    List (Outcome (Option Request × Bool))
  | _, [] => []
  | q, QueueOp.push r :: ops => fifoOutcomes (q ++ [r]) ops
  | [], QueueOp.pop :: ops => Outcome.wait :: fifoOutcomes [] ops
  | r :: q, QueueOp.pop :: ops => Outcome.ret (r, true) :: fifoOutcomes q ops
  | [], QueueOp.wake :: ops => Outcome.wait :: fifoOutcomes [] ops
  | r :: q, QueueOp.wake :: ops => Outcome.ret (r, true) :: fifoOutcomes q ops

/-- The lengths returned by the `PushBack` calls of a run, in order. -/
def pushOutcomes : List QueueResult → List (Outcome Nat)
  | [] => []
  | QueueResult.push o :: os => o :: pushOutcomes os
  | _ :: os => pushOutcomes os

/-- The lengths the `PushBack` calls of a run return on a first-in, first-out
queue that holds `n` requests at the start: the number buffered after the push. -/
def fifoLengths : Nat → List QueueOp → List (Outcome Nat)
  | _, [] => []
  | n, QueueOp.push _ :: ops => Outcome.ret (n + 1) :: fifoLengths (n + 1) ops
  | n, _ :: ops => fifoLengths (n - 1) ops

/-- No `PopFront` of the run meets an empty queue, when `n` requests are
buffered at the start. Then nothing is ever parked, so there is no wake-up. -/
def neverEmptyPop : Nat → List QueueOp → Bool
  | _, [] => true
  | n, QueueOp.push _ :: ops => neverEmptyPop (n + 1) ops
  | 0, QueueOp.pop :: _ => false
  | n + 1, QueueOp.pop :: ops => neverEmptyPop n ops
  | _, QueueOp.wake :: _ => false

/-- Calls `PopFront` `n` times and collects what each call gave. -/
def RequestChan.popMany : Nat → RequestChan → RequestChan × List (Outcome (Option Request × Bool))
  | 0, c => (c, [])
  | n + 1, c =>
    let rest := RequestChan.popMany n c.PopFront.1
    (rest.1, c.PopFront.2 :: rest.2)

/-- `Calls onRequest s rs s1 err`: calling `onRequest` on the requests `rs` one
after the other, from callback state `s`, every call but the last returns nil,
the last call returns `err`, and the callback state ends as `s1`. With no call at
all `err` is nil. -/
inductive Calls {σ : Type} (onRequest : σ → Option Request → σ × Option Error) :
    σ → List (Option Request) → σ → Option Error → Prop where
  | none (s : σ) : Calls onRequest s [] s none
  | last (s : σ) (r : Option Request) (s1 : σ) (e : Error) :
      onRequest s r = (s1, some e) → Calls onRequest s [r] s1 (some e)
  | next (s : σ) (r : Option Request) (s1 : σ) (rs : List (Option Request)) (s2 : σ)
      (err : Option Error) :
      onRequest s r = (s1, Option.none) → Calls onRequest s1 rs s2 err →
      Calls onRequest s (r :: rs) s2 err

/-! ## Effects of a `Forward` call, used to state its properties -/

/-- The pushes of the client request recorded in a trace: connection and
request, oldest first. -/
def forwards : List Event → List (BackendConn × Request)
  | [] => []
  | Event.forward bc r :: es => (bc, r) :: forwards es
  | _ :: es => forwards es

/-- From `st` to `st1` the request was not routed: `refs` and `Group` are as
before and the request was pushed to no connection. -/
def Unrouted (st st1 : State) : Prop :=
  st1.refs = st.refs ∧ st1.r.Group = st.r.Group ∧ forwards st1.trace = forwards st.trace

/-- From `st` to `st1` the request was routed once through slot `s`: `refs` was
incremented once, `Group` points to the `refs` of `s`, and the request was
pushed once, to one connection. -/
def RoutedOnce (s : Slot) (st st1 : State) : Prop :=
  st1.refs = st.refs + 1 ∧ st1.r.Group = some s.id ∧
    ∃ bc, forwards st1.trace = forwards st.trace ++ [(bc, st1.r)]

/-- The delays of the `time.Sleep` calls recorded in a trace, oldest first. -/
def slept : List Event → List Nat
  | [] => []
  | Event.sleep d :: es => d :: slept es
  | _ :: es => slept es

/-- The migrate sub-requests recorded in a trace: connection and frames, oldest
first. -/
def migrates : List Event → List (BackendConn × List redis.Resp)
  | [] => []
  | Event.migrate bc multi :: es => (bc, multi) :: migrates es
  | _ :: es => migrates es

/-- The events of `k` iterations that each issue the wrapper sub-request `multi`
on connection `bc` and then sleep, starting at iteration `loop`. -/
def retryEvents (bc : BackendConn) (multi : List redis.Resp) : Nat → Nat → List Event
  | _, 0 => []
  | loop, k + 1 =>
    Event.migrate bc multi :: Event.sleep (forwardSemiAsync.delay loop) ::
      retryEvents bc multi (loop + 1) k

/-- The indices `seed + 1, seed + 2, ..., seed + n` modulo `n`. -/
def probeOrder (seed n : Nat) : List Nat :=
  (List.range n).map (fun t => (seed + 1 + t) % n)

/-- The time slept over the attempts `0..k`: the sum of their delays. -/
def totalSleep (k : Nat) : Nat :=
  ((List.range (k + 1)).map forwardSemiAsync.delay).sum

/-- The bound of the specification on the time slept through attempt `k`:
`0 * 5 + 1ms * (5 + ... + min k 19) + 20ms * max 0 (k - 19)`. -/
def backoffBound (k : Nat) : Nat :=
  0 * 5 + time.Millisecond * (∑ i in Finset.Icc 5 (min k 19), i) +
    20 * time.Millisecond * (k - 19)

/-! ## Runs of the task runner, used to state its properties -/

/-- One event handled by the task runner: a request written with
`handleTask`, a decoded frame or an error passed to `handleResponse`. -/
inductive TaskOp where
  | task (r : PipelineRequest) (flush : Bool) (now : Nat) (io : ConnResult)
  | frame (p : parser.Resp)
  | fail (e : Error)

/-- Handles the events in order and collects what each call returned. -/
def taskRunner.run : taskRunner → List TaskOp → taskRunner × List (Outcome (Option Error))
  | tr, [] => (tr, [])
  | tr, TaskOp.task r flush now io :: ops =>
    let rest := taskRunner.run (tr.handleTask (some r) flush now io).1 ops
    (rest.1, (tr.handleTask (some r) flush now io).2 :: rest.2)
  | tr, TaskOp.frame p :: ops =>
    let rest := taskRunner.run (tr.handleResponse (OutValue.resp p)).1 ops
    (rest.1, (tr.handleResponse (OutValue.resp p)).2 :: rest.2)
  | tr, TaskOp.fail e :: ops =>
    let rest := taskRunner.run (tr.handleResponse (OutValue.error e)).1 ops
    (rest.1, (tr.handleResponse (OutValue.error e)).2 :: rest.2)

/-- The requests written by a run, in order. -/
def tasksOf : List TaskOp → List PipelineRequest
  | [] => []
  | TaskOp.task r _ _ _ :: ops => r :: tasksOf ops
  | _ :: ops => tasksOf ops

/-- The frames passed to `handleResponse` by a run, in order. -/
def framesOf : List TaskOp → List parser.Resp
  | [] => []
  | TaskOp.frame p :: ops => p :: framesOf ops
  | _ :: ops => framesOf ops

/-- No frame of the run arrives while no request is outstanding, when `n`
requests are outstanding at the start. -/
def neverEmptyFrame : Nat → List TaskOp → Bool
  | _, [] => true
  | n, TaskOp.task _ _ _ _ :: ops => neverEmptyFrame (n + 1) ops
  | 0, TaskOp.frame _ :: _ => false
  | n + 1, TaskOp.frame _ :: ops => neverEmptyFrame n ops
  | n, TaskOp.fail _ :: ops => neverEmptyFrame n ops

/-! ## Sample data -/

/-- A request at address `ptr` whose other fields are zero. -/
def sampleRequest (ptr : Nat) : Request :=
  { ptr := ptr, Multi := [], Group := none, Broken := none, OpFlag := { IsReadOnly := false },
    Database := 0, UnixNano := 0, Resp := none, Err := none }

/-- A run on a fresh queue in which a `PopFront` is parked on the empty queue
and woken after the next `PushBack`. -/
def sampleOps : List QueueOp :=
  [QueueOp.push (some (sampleRequest 1)), QueueOp.pop, QueueOp.pop,
    QueueOp.push (some (sampleRequest 2)), QueueOp.wake,
    QueueOp.push (some (sampleRequest 3))]

/-- A run on a fresh queue in which no `PopFront` meets an empty queue. -/
def sampleOpsBusy : List QueueOp :=
  [QueueOp.push (some (sampleRequest 1)), QueueOp.push (some (sampleRequest 2)), QueueOp.pop,
    QueueOp.pop, QueueOp.push (some (sampleRequest 3)), QueueOp.pop,
    QueueOp.push (some (sampleRequest 4))]

/-- A closed queue holding three requests. -/
def sampleClosed : RequestChan :=
  { data := [some (sampleRequest 1), some (sampleRequest 2), some (sampleRequest 3)],
    buff := [none, none], waits := 0, closed := true, signals := 0, broadcasts := 1 }

/-- A callback that logs the address of each request and fails on address 2. -/
def sampleCallback (log : List Nat) (r : Option Request) : List Nat × Option Error :=
  match r with
  | none => (log, none)
  | some x => (log ++ [x.ptr], if x.ptr = 2 then some (Error.other 7) else none)

/-- A pool at host "1", port "2" whose every lookup gives connection `id`. -/
def samplePool (id : Nat) : sharedBackendConn :=
  { host := [49], port := [50], BackendConn := fun _ _ _ => some { id := id } }

/-- A slot with primary pool 1, in migration from pool 2. -/
def sampleSlot : Slot :=
  { id := 7, backend := some (samplePool 1), migrate := some (samplePool 2),
    replicaGroups := [] }

/-- A slot without primary, in migration from pool 2. -/
def sampleSlotOffline : Slot :=
  { id := 7, backend := none, migrate := some (samplePool 2), replicaGroups := [] }

/-- The start of a `Forward` call on request 1: `refs` is zero and nothing has
happened yet. -/
def sampleState : State :=
  { r := sampleRequest 1, refs := 0, trace := [] }

/-- The hash key "k". -/
def sampleKey : Bytes := [107]

/-- A two-element array reply of the wrapper: an integer frame with the one-byte
text `tag`, then `payload`. -/
def wrapperReply (tag : Nat) (payload : redis.Resp) : redis.Resp :=
  redis.Resp.mk redis.RespType.array []
    [redis.Resp.mk redis.RespType.int [tag] [], payload]

/-- The frame `+OK`. -/
def sampleOK : redis.Resp := redis.Resp.mk redis.RespType.string [79, 75] []

/-- A slot with primary pool 1, no migration, and the replica group `[B]` where
`B` is pool 3. -/
def sampleSlotReplica : Slot :=
  { id := 7, backend := some (samplePool 1), migrate := none,
    replicaGroups := [[samplePool 3]] }

/-- A read-only request at address 1. -/
def sampleRead : Request :=
  { sampleRequest 1 with OpFlag := { IsReadOnly := true } }

/-- A slot with primary pool 1, no migration, and one replica group of two live
members, pools 3 and 4. -/
def sampleSlotTwoReplicas : Slot :=
  { id := 7, backend := some (samplePool 1), migrate := none,
    replicaGroups := [[samplePool 3, samplePool 4]] }

/-- The wrapper reply with tag '1': not moved, no reply, retry. -/
def sampleRetry : Completion :=
  { Err := none, Resp := some (wrapperReply 49 sampleOK) }

/-- The wrapper reply with tag '0': moved. -/
def sampleMoved : Completion :=
  { Err := none, Resp := some (wrapperReply 48 sampleOK) }

/-- The sample state with a request whose broken flag is set. -/
def sampleStateBroken : State :=
  { sampleState with r := { sampleState.r with Broken := some (fun _ => true) } }

/-- A slot with primary pool 1 and no migration source. -/
def sampleSlotSteady : Slot :=
  { id := 7, backend := some (samplePool 1), migrate := none, replicaGroups := [] }

/-- A pipeline request at address `ptr` with back queue `q`. -/
def samplePipelineRequest (ptr q : Nat) : PipelineRequest :=
  { ptr := ptr, req := sampleOK, backQ := q }

/-- A task runner with nothing outstanding. -/
def sampleRunner : taskRunner :=
  { tasks := [], latest := 0, closed := false, written := [], backQ := [] }

/-- A connection on which every call succeeds. -/
def sampleConnOK : ConnResult := { bytes := none, write := none, flush := none }

/-- Two requests are written, then their two frames arrive. -/
def sampleTaskOps : List TaskOp :=
  [TaskOp.task (samplePipelineRequest 1 10) false 1 sampleConnOK,
    TaskOp.task (samplePipelineRequest 2 20) true 2 sampleConnOK,
    TaskOp.frame sampleOK, TaskOp.frame sampleOK]

/-! ## Properties of the queue -/

theorem RequestChan.PushBack_open (c : RequestChan) (r : Option Request)
    (h : c.closed = false) :
    (c.PushBack r).1.data = c.data ++ [r] ∧ (c.PushBack r).1.closed = false ∧
      (c.PushBack r).2 = Outcome.ret (c.data.length + 1) := by
  unfold RequestChan.PushBack RequestChan.lockedPushBack
  by_cases hw : c.waits = 0 <;> simp [h, hw]

theorem RequestChan.PopFront_nil (c : RequestChan) (h : c.closed = false)
    (hd : c.data = []) :
    c.PopFront.1.data = [] ∧ c.PopFront.1.closed = false ∧ c.PopFront.2 = Outcome.wait := by
  unfold RequestChan.PopFront RequestChan.lockedPopFront
  simp [h, hd]

theorem RequestChan.PopFront_cons (c : RequestChan) (r : Option Request)
    (rest : List (Option Request)) (hd : c.data = r :: rest) :
    c.PopFront = ({ c with data := rest }, Outcome.ret (r, true)) := by
  unfold RequestChan.PopFront RequestChan.lockedPopFront
  simp [hd]

theorem RequestChan.wake_nil (c : RequestChan) (h : c.closed = false)
    (hd : c.data = []) :
    c.lockedPopFrontWake.1.data = [] ∧ c.lockedPopFrontWake.1.closed = false ∧
      c.lockedPopFrontWake.2 = Outcome.wait := by
  unfold RequestChan.lockedPopFrontWake RequestChan.lockedPopFront
  simp [h, hd]

theorem RequestChan.wake_cons (c : RequestChan) (r : Option Request)
    (rest : List (Option Request)) (hd : c.data = r :: rest) :
    c.lockedPopFrontWake = ({ c with data := rest, waits := c.waits - 1 },
      Outcome.ret (r, true)) := by
  unfold RequestChan.lockedPopFrontWake RequestChan.lockedPopFront
  simp [hd]

/-- Every run on an open queue conserves the requests: what was handed out,
followed by what is still buffered, is what was buffered at the start followed
by what was pushed. -/
theorem RequestChan.run_conserves (ops : List QueueOp) :
    ∀ c : RequestChan, c.closed = false →
      delivered (c.run ops).2 ++ (c.run ops).1.data = c.data ++ pushedOf ops := by
  induction ops with
  | nil => intro c _; simp [RequestChan.run, delivered, pushedOf]
  | cons op ops ih =>
    intro c hc
    cases op with
    | push r =>
      obtain ⟨h1, h2, h3⟩ := RequestChan.PushBack_open c r hc
      have := ih (c.PushBack r).1 h2
      simp only [RequestChan.run, delivered, pushedOf]
      rw [this, h1]; simp
    | pop =>
      cases hd : c.data with
      | nil =>
        obtain ⟨h1, h2, h3⟩ := RequestChan.PopFront_nil c hc hd
        have := ih c.PopFront.1 h2
        simp only [RequestChan.run, pushedOf]
        rw [h3]; simp only [delivered]
        rw [this, h1]
      | cons r rest =>
        have h := RequestChan.PopFront_cons c r rest hd
        have := ih c.PopFront.1 (by rw [h]; exact hc)
        simp only [RequestChan.run, pushedOf]
        rw [h] at this ⊢
        simp only [delivered]
        simp only [List.cons_append]
        rw [this]
    | wake =>
      cases hd : c.data with
      | nil =>
        obtain ⟨h1, h2, h3⟩ := RequestChan.wake_nil c hc hd
        have := ih c.lockedPopFrontWake.1 h2
        simp only [RequestChan.run, pushedOf]
        rw [h3]; simp only [delivered]
        rw [this, h1]
      | cons r rest =>
        have h := RequestChan.wake_cons c r rest hd
        have := ih c.lockedPopFrontWake.1 (by rw [h]; exact hc)
        simp only [RequestChan.run, pushedOf]
        rw [h] at this ⊢
        simp only [delivered]
        simp only [List.cons_append]
        rw [this]

/-- When no `PopFront` of a run meets an empty queue, the calls return the
buffered and pushed requests one by one from the front. -/
theorem RequestChan.run_pops (ops : List QueueOp) :
    ∀ c : RequestChan, c.closed = false → neverEmptyPop c.data.length ops = true →
      popOutcomes (c.run ops).2 =
        ((c.data ++ pushedOf ops).take (popCount ops)).map (fun r => Outcome.ret (r, true)) ∧
      (c.run ops).1.data = (c.data ++ pushedOf ops).drop (popCount ops) := by
  induction ops with
  | nil => intro c _ _; simp [RequestChan.run, popOutcomes, pushedOf, popCount]
  | cons op ops ih =>
    intro c hc hne
    cases op with
    | push r =>
      obtain ⟨h1, h2, h3⟩ := RequestChan.PushBack_open c r hc
      have := ih (c.PushBack r).1 h2 (by rw [h1]; simpa [neverEmptyPop] using hne)
      simp only [RequestChan.run, popOutcomes, pushedOf, popCount]
      rw [h1] at this
      simpa using this
    | pop =>
      cases hd : c.data with
      | nil => rw [hd] at hne; simp [neverEmptyPop] at hne
      | cons r rest =>
        have h := RequestChan.PopFront_cons c r rest hd
        rw [hd] at hne
        have := ih c.PopFront.1 (by rw [h]; exact hc)
          (by rw [h]; simpa [neverEmptyPop] using hne)
        simp only [RequestChan.run, popOutcomes, pushedOf, popCount]
        rw [h] at this ⊢
        simp only [List.cons_append, List.take_succ_cons, List.drop_succ_cons, List.map_cons]
        exact ⟨by rw [this.1], this.2⟩
    | wake => simp [neverEmptyPop] at hne

theorem neverEmptyPop_count (ops : List QueueOp) :
    ∀ n : Nat, neverEmptyPop n ops = true → popCount ops ≤ n + (pushedOf ops).length := by
  induction ops with
  | nil => intro n _; simp [popCount]
  | cons op ops ih =>
    intro n h
    cases op with
    | push r =>
      have := ih (n + 1) (by simpa [neverEmptyPop] using h)
      simp only [popCount, pushedOf, List.length_cons]
      omega
    | pop =>
      cases n with
      | zero => simp [neverEmptyPop] at h
      | succ n =>
        have := ih n (by simpa [neverEmptyPop] using h)
        simp only [popCount, pushedOf]
        omega
    | wake => simp [neverEmptyPop] at h

/-- On an open queue every `PopFront` and every wake-up of a run gives what a
first-in, first-out queue gives, and every `PushBack` returns the number of
requests buffered after it. -/
theorem RequestChan.run_outcomes (ops : List QueueOp) :
    ∀ c : RequestChan, c.closed = false →
      popOutcomes (c.run ops).2 = fifoOutcomes c.data ops ∧
      pushOutcomes (c.run ops).2 = fifoLengths c.data.length ops := by
  induction ops with
  | nil => intro c _; simp [RequestChan.run, popOutcomes, fifoOutcomes, pushOutcomes, fifoLengths]
  | cons op ops ih =>
    intro c hc
    cases op with
    | push r =>
      obtain ⟨h1, h2, h3⟩ := RequestChan.PushBack_open c r hc
      have := ih (c.PushBack r).1 h2
      rw [h1] at this
      simp only [RequestChan.run, popOutcomes, fifoOutcomes, pushOutcomes, fifoLengths]
      rw [h3]
      exact ⟨this.1, by rw [this.2]; simp⟩
    | pop =>
      cases hd : c.data with
      | nil =>
        obtain ⟨h1, h2, h3⟩ := RequestChan.PopFront_nil c hc hd
        have := ih c.PopFront.1 h2
        rw [h1] at this
        simp only [RequestChan.run, popOutcomes, fifoOutcomes, pushOutcomes, fifoLengths]
        rw [h3, this.1]
        exact ⟨rfl, by rw [this.2]; simp⟩
      | cons r rest =>
        have h := RequestChan.PopFront_cons c r rest hd
        have := ih c.PopFront.1 (by rw [h]; exact hc)
        rw [h] at this
        simp only [RequestChan.run, popOutcomes, fifoOutcomes, pushOutcomes, fifoLengths]
        rw [h]
        exact ⟨by rw [this.1], by rw [this.2]; simp⟩
    | wake =>
      cases hd : c.data with
      | nil =>
        obtain ⟨h1, h2, h3⟩ := RequestChan.wake_nil c hc hd
        have := ih c.lockedPopFrontWake.1 h2
        rw [h1] at this
        simp only [RequestChan.run, popOutcomes, fifoOutcomes, pushOutcomes, fifoLengths]
        rw [h3, this.1]
        exact ⟨rfl, by rw [this.2]; simp⟩
      | cons r rest =>
        have h := RequestChan.wake_cons c r rest hd
        have := ih c.lockedPopFrontWake.1 (by rw [h]; exact hc)
        rw [h] at this
        simp only [RequestChan.run, popOutcomes, fifoOutcomes, pushOutcomes, fifoLengths]
        rw [h]
        exact ⟨by rw [this.1], by rw [this.2]; simp⟩

/-- C1. `RequestChan` is a FIFO queue with exactly-once delivery. For every run
of `PushBack`, `PopFront` and wake-up steps on an open queue: the requests handed
out followed by the buffered ones are the initially buffered followed by the
pushed ones; every `PopFront` and every wake-up that finds a request buffered
returns the oldest one with `true` and removes it, and one that finds the queue
empty is parked (the active buffer is then reset to the spare one) and returns
nothing until it is woken; every `PushBack` returns the number buffered after
it. When no `PopFront` meets an empty queue, the i-th `PopFront` returns
`(r_i, true)` with `r_i` the i-th request of that sequence, and the rest stays
buffered in order; distinct requests are handed out at most once and a request
handed out is no longer buffered. -/
theorem RequestChan.fifo_exactly_once (c : RequestChan) (ops : List QueueOp)
    (hopen : c.closed = false) :
    delivered (c.run ops).2 ++ (c.run ops).1.data = c.data ++ pushedOf ops ∧
    popOutcomes (c.run ops).2 = fifoOutcomes c.data ops ∧
    pushOutcomes (c.run ops).2 = fifoLengths c.data.length ops ∧
    (neverEmptyPop c.data.length ops = true →
      popCount ops ≤ (c.data ++ pushedOf ops).length ∧
      popOutcomes (c.run ops).2 =
        ((c.data ++ pushedOf ops).take (popCount ops)).map
          (fun r => Outcome.ret (r, true)) ∧
      (c.run ops).1.data = (c.data ++ pushedOf ops).drop (popCount ops)) ∧
    ((c.data ++ pushedOf ops).Nodup →
      (delivered (c.run ops).2).Nodup ∧
      ∀ x ∈ delivered (c.run ops).2, x ∉ (c.run ops).1.data) := by
  have h1 := RequestChan.run_conserves ops c hopen
  obtain ⟨ho1, ho2⟩ := RequestChan.run_outcomes ops c hopen
  refine ⟨h1, ho1, ho2, ?_, ?_⟩
  · intro hne
    have h2 := RequestChan.run_pops ops c hopen hne
    have h3 := neverEmptyPop_count ops c.data.length hne
    exact ⟨by simpa using h3, h2.1, h2.2⟩
  · intro hnd
    rw [← h1] at hnd
    have h := List.nodup_append.mp hnd
    exact ⟨h.1, fun x hx hx2 => h.2.2 hx hx2⟩

theorem RequestChan.fifo_exactly_once_witness :
    NewRequestChan.closed = false ∧
    neverEmptyPop NewRequestChan.data.length sampleOpsBusy = true ∧
    delivered (NewRequestChan.run sampleOps).2 ++ (NewRequestChan.run sampleOps).1.data =
      NewRequestChan.data ++ pushedOf sampleOps ∧
    popOutcomes (NewRequestChan.run sampleOps).2 =
      [Outcome.ret (some (sampleRequest 1), true), Outcome.wait,
        Outcome.ret (some (sampleRequest 2), true)] ∧
    pushOutcomes (NewRequestChan.run sampleOps).2 =
      [Outcome.ret 1, Outcome.ret 1, Outcome.ret 1] ∧
    popOutcomes (NewRequestChan.run sampleOpsBusy).2 =
      ((NewRequestChan.data ++ pushedOf sampleOpsBusy).take (popCount sampleOpsBusy)).map
        (fun r => Outcome.ret (r, true)) ∧
    (NewRequestChan.run sampleOpsBusy).1.data =
      (NewRequestChan.data ++ pushedOf sampleOpsBusy).drop (popCount sampleOpsBusy) :=
  ⟨rfl, rfl, (RequestChan.fifo_exactly_once NewRequestChan sampleOps rfl).1,
    (RequestChan.fifo_exactly_once NewRequestChan sampleOps rfl).2.1,
    (RequestChan.fifo_exactly_once NewRequestChan sampleOps rfl).2.2.1,
    ((RequestChan.fifo_exactly_once NewRequestChan sampleOpsBusy rfl).2.2.2.1 rfl).2⟩

/-- C2. `PushBack(r)` on a closed queue panics and leaves the queue as it was;
on an open queue it appends `r` at the tail and returns the new length, which is
the previous `Buffered()` plus one and the `Buffered()` right afterwards. -/
theorem RequestChan.PushBack_contract (c : RequestChan) (r : Option Request) :
    (c.closed = true → (c.PushBack r).2 = Outcome.panics ∧ (c.PushBack r).1 = c) ∧
    (c.closed = false →
      (c.PushBack r).1.data = c.data ++ [r] ∧
      (c.PushBack r).2 = Outcome.ret (c.Buffered + 1) ∧
      (c.PushBack r).2 = Outcome.ret (c.PushBack r).1.Buffered ∧
      (c.PushBack r).1.closed = false) := by
  constructor
  · intro h
    simp [RequestChan.PushBack, RequestChan.lockedPushBack, h]
  · intro h
    obtain ⟨h1, h2, h3⟩ := RequestChan.PushBack_open c r h
    refine ⟨h1, h3, ?_, h2⟩
    rw [h3]
    simp [RequestChan.Buffered, h1]

theorem RequestChan.PushBack_contract_witness :
    sampleClosed.closed = true ∧ NewRequestChan.closed = false ∧
    ((sampleClosed.PushBack (some (sampleRequest 9))).2 = Outcome.panics ∧
      (sampleClosed.PushBack (some (sampleRequest 9))).1 = sampleClosed) ∧
    (NewRequestChan.PushBack (some (sampleRequest 9))).2 =
      Outcome.ret (NewRequestChan.Buffered + 1) :=
  ⟨rfl, rfl, (RequestChan.PushBack_contract sampleClosed (some (sampleRequest 9))).1 rfl,
    ((RequestChan.PushBack_contract NewRequestChan (some (sampleRequest 9))).2 rfl).2.1⟩

theorem RequestChan.Close_iterate (k : Nat) :
    ∀ c : RequestChan, (RequestChan.Close^[k + 1] c).closed = true ∧
      (RequestChan.Close^[k + 1] c).data = c.data := by
  induction k with
  | zero =>
    intro c
    cases h : c.closed <;> simp [RequestChan.Close, h]
  | succ k ih =>
    intro c
    rw [Function.iterate_succ_apply]
    obtain ⟨h1, h2⟩ := ih c.Close
    refine ⟨h1, ?_⟩
    rw [h2]
    cases h : c.closed <;> simp [RequestChan.Close, h]

theorem RequestChan.popMany_closed (data : List (Option Request)) :
    ∀ c : RequestChan, c.closed = true → c.data = data →
      (RequestChan.popMany (data.length + 1) c).2 =
        data.map (fun r => Outcome.ret (r, true)) ++ [Outcome.ret (none, false)] ∧
      (RequestChan.popMany (data.length + 1) c).1.data = [] := by
  induction data with
  | nil =>
    intro c hc hd
    simp [RequestChan.popMany, RequestChan.PopFront, RequestChan.lockedPopFront, hc, hd]
  | cons r rest ih =>
    intro c hc hd
    have h := RequestChan.PopFront_cons c r rest hd
    have := ih c.PopFront.1 (by rw [h]; exact hc) (by rw [h])
    rw [List.length_cons, RequestChan.popMany]
    refine ⟨?_, this.2⟩
    simp only [List.map_cons, List.cons_append]
    rw [this.1, h]

/-- C3. `PopFront` returns `(nil, false)` exactly when the queue is closed and
its active buffer is empty; on a non-empty buffer, open or closed, it returns
`(head, true)` and removes only the head. After `Close`, once or repeatedly, on
a queue holding `r1..rn`, `n` calls of `PopFront` return `r1..rn` in order, the
next one returns `(nil, false)`, and the queue is then empty. -/
theorem RequestChan.PopFront_contract (c : RequestChan) :
    (c.PopFront.2 = Outcome.ret (none, false) ↔ (c.closed = true ∧ c.data = [])) ∧
    (∀ r rest, c.data = r :: rest →
      c.PopFront = ({ c with data := rest }, Outcome.ret (r, true))) ∧
    (∀ k : Nat,
      (RequestChan.popMany (c.data.length + 1) (RequestChan.Close^[k + 1] c)).2 =
        c.data.map (fun r => Outcome.ret (r, true)) ++ [Outcome.ret (none, false)] ∧
      (RequestChan.popMany (c.data.length + 1) (RequestChan.Close^[k + 1] c)).1.data = []) := by
  refine ⟨?_, fun r rest h => RequestChan.PopFront_cons c r rest h, ?_⟩
  · cases hd : c.data with
    | nil =>
      cases hc : c.closed <;>
        simp [RequestChan.PopFront, RequestChan.lockedPopFront, hd, hc]
    | cons r rest =>
      rw [RequestChan.PopFront_cons c r rest hd]
      simp
  · intro k
    obtain ⟨h1, h2⟩ := RequestChan.Close_iterate k c
    exact RequestChan.popMany_closed c.data _ h1 h2

theorem RequestChan.PopFront_contract_witness :
    sampleClosed.data = some (sampleRequest 1) :: [some (sampleRequest 2), some (sampleRequest 3)] ∧
    sampleClosed.PopFront =
      ({ sampleClosed with data := [some (sampleRequest 2), some (sampleRequest 3)] },
        Outcome.ret (some (sampleRequest 1), true)) :=
  ⟨rfl, (RequestChan.PopFront_contract sampleClosed).2.1 _ _ rfl⟩

theorem RequestChan.PopFrontAll_drain {σ : Type}
    (onRequest : σ → Option Request → σ × Option Error) (fuel : Nat) :
    ∀ (c : RequestChan) (s : σ), c.closed = true → c.data.length < fuel →
      ∃ c1 s1 err called,
        RequestChan.PopFrontAll onRequest fuel c s = some (c1, s1, Outcome.ret err) ∧
        called ++ c1.data = c.data ∧ Calls onRequest s called s1 err ∧
        (err = none → c1.data = []) ∧ c1.closed = true := by
  induction fuel with
  | zero => intro c s _ hf; omega
  | succ fuel ih =>
    intro c s hc hf
    cases hd : c.data with
    | nil =>
      refine ⟨c, s, none, [], ?_, by simp [hd], Calls.none s, fun _ => hd, hc⟩
      simp [RequestChan.PopFrontAll, RequestChan.PopFront, RequestChan.lockedPopFront, hd, hc]
    | cons r rest =>
      have h := RequestChan.PopFront_cons c r rest hd
      cases hcall : onRequest s r with
      | mk s1 e =>
        cases e with
        | some e =>
          refine ⟨{ c with data := rest }, s1, some e, [r], ?_, by simp,
            Calls.last s r s1 e hcall, by simp, hc⟩
          simp [RequestChan.PopFrontAll, h, hcall]
        | none =>
          have hlen : ({ c with data := rest } : RequestChan).data.length < fuel := by
            rw [hd] at hf
            simp at hf ⊢
            omega
          obtain ⟨c1, s2, err, called, h1, h2, h3, h4, h5⟩ :=
            ih { c with data := rest } s1 hc hlen
          refine ⟨c1, s2, err, r :: called, ?_, by simpa using h2,
            Calls.next s r s1 called s2 err hcall h3, h4, h5⟩
          simp [RequestChan.PopFrontAll, h, hcall, h1]

/-- C4. `PopFrontAll` on a closed queue holding `r1..rn` terminates (any fuel
above `n` is enough and the loop returns). It calls the callback on a prefix of
`r1..rn` in order; every call but the last returns nil and the value returned
is that of the last call, so the loop stops at the first error and returns it,
with the requests after it still buffered in order; when it returns nil the
callback was called once on every request and the queue is empty. -/
theorem RequestChan.PopFrontAll_closed {σ : Type}
    (onRequest : σ → Option Request → σ × Option Error) (fuel : Nat)
    (c : RequestChan) (s : σ) (hc : c.closed = true) (hf : c.data.length < fuel) :
    ∃ c1 s1 err called,
      RequestChan.PopFrontAll onRequest fuel c s = some (c1, s1, Outcome.ret err) ∧
      called ++ c1.data = c.data ∧ Calls onRequest s called s1 err ∧
      (err = none → c1.data = [] ∧ called = c.data) ∧ c1.closed = true := by
  obtain ⟨c1, s1, err, called, h1, h2, h3, h4, h5⟩ :=
    RequestChan.PopFrontAll_drain onRequest fuel c s hc hf
  refine ⟨c1, s1, err, called, h1, h2, h3, fun he => ⟨h4 he, ?_⟩, h5⟩
  rw [← h2, h4 he]
  simp

theorem RequestChan.PopFrontAll_closed_witness :
    sampleClosed.closed = true ∧ sampleClosed.data.length < 4 ∧
    ∃ c1 s1 err called,
      RequestChan.PopFrontAll sampleCallback 4 sampleClosed [] =
        some (c1, s1, Outcome.ret err) ∧
      called ++ c1.data = sampleClosed.data ∧ Calls sampleCallback [] called s1 err ∧
      (err = none → c1.data = [] ∧ called = sampleClosed.data) ∧ c1.closed = true :=
  ⟨rfl, by decide,
    RequestChan.PopFrontAll_closed sampleCallback 4 sampleClosed [] rfl (by decide)⟩

/-! ## Properties of the forwarder -/

/-- C5. In both strategies a slot without primary backend makes `Forward` return
`ErrSlotIsNotReady` at once, whatever the migration source, the hash key, the
request and the iteration counter are, and leaves the state as it was: no
migrate sub-request, no sleep and retry, `refs` and `Group` unchanged, and the
request pushed to no connection. -/
theorem Forward_slot_not_ready (s : Slot) (hkey : Bytes) (done : Option Completion)
    (comps : List Completion) (loop : Nat) (st : State) (h : s.backend = none) :
    forwardSync.Forward s hkey done st = (Outcome.ret (some Error.ErrSlotIsNotReady), st) ∧
    forwardSemiAsync.Forward s hkey comps loop st =
      (Outcome.ret (some Error.ErrSlotIsNotReady), st) := by
  constructor
  · simp [forwardSync.Forward, forwardSync.process, h]
  · cases comps <;>
      simp [forwardSemiAsync.Forward, forwardSemiAsync.iteration, forwardSemiAsync.process, h]

theorem Forward_slot_not_ready_witness :
    sampleSlotOffline.backend = none ∧
    forwardSync.Forward sampleSlotOffline sampleKey none sampleState =
      (Outcome.ret (some Error.ErrSlotIsNotReady), sampleState) ∧
    forwardSemiAsync.Forward sampleSlotOffline sampleKey [] 0 sampleState =
      (Outcome.ret (some Error.ErrSlotIsNotReady), sampleState) :=
  ⟨rfl, Forward_slot_not_ready sampleSlotOffline sampleKey none [] 0 sampleState rfl⟩

theorem slotsmgrt_completed (s : Slot) (hkey : Bytes) (database : Int) (seed : Nat)
    (m : Completion) (st : State) (backend migrate : sharedBackendConn) (bc : BackendConn)
    (hb : s.backend = some backend) (hm : s.migrate = some migrate)
    (hc : migrate.BackendConn database seed true = some bc) :
    forwardHelper.slotsmgrt s hkey database seed (some m) st =
      (Outcome.ret (forwardHelper.slotsmgrtResult m),
        { st with trace := st.trace ++ [Event.migrate bc
          [redis.NewBulkBytes SLOTSMGRTTAGONE, redis.NewBulkBytes backend.host,
            redis.NewBulkBytes backend.port, redis.NewBulkBytes timeout3000,
            redis.NewBulkBytes hkey]] }) := by
  simp [forwardHelper.slotsmgrt, hb, hm, hc]

/-- C6. The synchronous migrate step returns nil exactly when the completed
sub-request carries no error and its reply is an integer frame. Otherwise it
returns an error: the error of the sub-request if one is set,
`ErrRespIsRequired` without error and without reply, "bad slotsmgrt resp" for
an error frame and for every other frame that is not an integer. -/
theorem slotsmgrt_result (s : Slot) (hkey : Bytes) (database : Int) (seed : Nat)
    (m : Completion) (st : State) (backend migrate : sharedBackendConn) (bc : BackendConn)
    (hb : s.backend = some backend) (hm : s.migrate = some migrate)
    (hc : migrate.BackendConn database seed true = some bc) :
    ((forwardHelper.slotsmgrt s hkey database seed (some m) st).1 = Outcome.ret none ↔
      (m.Err = none ∧ ∃ resp, m.Resp = some resp ∧ resp.IsInt = true)) ∧
    (∀ e, m.Err = some e →
      (forwardHelper.slotsmgrt s hkey database seed (some m) st).1 = Outcome.ret (some e)) ∧
    (m.Err = none → m.Resp = none →
      (forwardHelper.slotsmgrt s hkey database seed (some m) st).1 =
        Outcome.ret (some Error.ErrRespIsRequired)) ∧
    (∀ resp, m.Err = none → m.Resp = some resp → resp.IsError = true →
      (forwardHelper.slotsmgrt s hkey database seed (some m) st).1 =
        Outcome.ret (some (Error.badSlotsmgrtResp resp.Value))) ∧
    (∀ resp, m.Err = none → m.Resp = some resp → resp.IsError = false →
      resp.IsInt = false →
      (forwardHelper.slotsmgrt s hkey database seed (some m) st).1 =
        Outcome.ret (some (Error.badSlotsmgrtType resp.type))) := by
  rw [slotsmgrt_completed s hkey database seed m st backend migrate bc hb hm hc]
  obtain ⟨err, reply⟩ := m
  cases err with
  | some e => simp [forwardHelper.slotsmgrtResult]
  | none =>
    cases reply with
    | none => simp [forwardHelper.slotsmgrtResult]
    | some resp =>
      obtain ⟨t, v, a⟩ := resp
      cases t <;>
        simp [forwardHelper.slotsmgrtResult, redis.Resp.IsError, redis.Resp.IsInt,
          redis.Resp.type, redis.Resp.Value]

theorem slotsmgrt_result_witness :
    sampleSlot.backend = some (samplePool 1) ∧ sampleSlot.migrate = some (samplePool 2) ∧
    (samplePool 2).BackendConn 0 5 true = some { id := 2 } ∧
    (forwardHelper.slotsmgrt sampleSlot sampleKey 0 5
      (some { Err := none, Resp := some (redis.Resp.mk redis.RespType.error [69] []) })
      sampleState).1 = Outcome.ret (some (Error.badSlotsmgrtResp [69])) :=
  ⟨rfl, rfl, rfl,
    (slotsmgrt_result sampleSlot sampleKey 0 5
      { Err := none, Resp := some (redis.Resp.mk redis.RespType.error [69] []) }
      sampleState (samplePool 1) (samplePool 2) { id := 2 } rfl rfl rfl).2.2.2.1
      (redis.Resp.mk redis.RespType.error [69] []) rfl rfl rfl⟩

theorem slotsmgrtExecWrapper_completed (s : Slot) (hkey : Bytes) (database : Int)
    (seed : Nat) (multi : List redis.Resp) (m : Completion) (st : State)
    (migrate : sharedBackendConn) (bc : BackendConn)
    (hm : s.migrate = some migrate)
    (hc : migrate.BackendConn database seed true = some bc) :
    forwardHelper.slotsmgrtExecWrapper s hkey database seed multi (some m) st =
      (Outcome.ret (forwardHelper.slotsmgrtExecWrapperResult m),
        { st with trace := st.trace ++ [Event.migrate bc
          ([redis.NewBulkBytes SLOTSMGRT_EXEC_WRAPPER, redis.NewBulkBytes hkey] ++ multi)] }) := by
  simp [forwardHelper.slotsmgrtExecWrapper, hm, hc]

theorem wrapperResult_tag (v : Bytes) (a : List redis.Resp) (a1 : redis.Resp) (b : Nat) :
    forwardHelper.slotsmgrtExecWrapperResult
      { Err := none, Resp := some (redis.Resp.mk redis.RespType.array v
          [redis.Resp.mk redis.RespType.int [b] a, a1]) } =
      match (b + 256 - 48) % 256 with
      | 0 => (none, true, none)
      | 1 => (none, false, none)
      | 2 => (some a1, false, none)
      | _ => (none, false, some (Error.badWrapperCode [b] a1.Value)) := by
  simp [forwardHelper.slotsmgrtExecWrapperResult, redis.Resp.IsError, redis.Resp.IsArray,
    redis.Resp.IsInt, redis.Resp.type, redis.Resp.Array, redis.Resp.Value]

theorem wrapperResult_other (reply : Option redis.Resp)
    (h : ∀ v a a1 b, reply = some (redis.Resp.mk redis.RespType.array v
        [redis.Resp.mk redis.RespType.int [b] a, a1]) →
      b < 256 ∧ b ≠ 48 ∧ b ≠ 49 ∧ b ≠ 50) :
    ∃ e, forwardHelper.slotsmgrtExecWrapperResult { Err := none, Resp := reply } =
      (none, false, some e) := by
  cases reply with
  | none => simp [forwardHelper.slotsmgrtExecWrapperResult]
  | some resp =>
    obtain ⟨t, v, arr⟩ := resp
    by_cases ht : t = redis.RespType.array
    · subst ht
      match arr with
      | [] =>
        simp [forwardHelper.slotsmgrtExecWrapperResult, redis.Resp.IsError,
          redis.Resp.IsArray, redis.Resp.type, redis.Resp.Array]
      | [_] =>
        simp [forwardHelper.slotsmgrtExecWrapperResult, redis.Resp.IsError,
          redis.Resp.IsArray, redis.Resp.type, redis.Resp.Array]
      | _ :: _ :: _ :: _ =>
        simp [forwardHelper.slotsmgrtExecWrapperResult, redis.Resp.IsError,
          redis.Resp.IsArray, redis.Resp.type, redis.Resp.Array]
      | [a0, a1] =>
        obtain ⟨t0, v0, arr0⟩ := a0
        by_cases ht0 : t0 = redis.RespType.int
        · subst ht0
          match v0 with
          | [] =>
            simp [forwardHelper.slotsmgrtExecWrapperResult, redis.Resp.IsError,
              redis.Resp.IsArray, redis.Resp.IsInt, redis.Resp.type, redis.Resp.Array,
              redis.Resp.Value]
          | _ :: _ :: _ =>
            simp [forwardHelper.slotsmgrtExecWrapperResult, redis.Resp.IsError,
              redis.Resp.IsArray, redis.Resp.IsInt, redis.Resp.type, redis.Resp.Array,
              redis.Resp.Value]
          | [b] =>
            obtain ⟨hb, h0, h1, h2⟩ := h v arr0 a1 b rfl
            rw [wrapperResult_tag]
            have hk : ∃ k, (b + 256 - 48) % 256 = k + 3 := ⟨(b + 256 - 48) % 256 - 3, by omega⟩
            obtain ⟨k, hk⟩ := hk
            rw [hk]
            exact ⟨_, rfl⟩
        · refine ⟨Error.badWrapperTag t0 v0.length, ?_⟩
          cases t0 <;>
            first
            | exact absurd rfl ht0
            | simp [forwardHelper.slotsmgrtExecWrapperResult, redis.Resp.IsError,
                redis.Resp.IsArray, redis.Resp.IsInt, redis.Resp.type, redis.Resp.Array,
                redis.Resp.Value]
    · cases t <;>
        first
        | exact absurd rfl ht
        | simp [forwardHelper.slotsmgrtExecWrapperResult, redis.Resp.IsError,
            redis.Resp.IsArray, redis.Resp.type, redis.Resp.Value]

/-- C7. The reply classifier of the wrapper, for a sub-request completed without
error. A two-element array whose first element is an integer frame with the
one-byte text '0' gives `moved = true` without payload, '1' gives
`moved = false` without payload, '2' gives `moved = false` with the second
element as payload. Every other reply (none, error frame, non-array, array of
another length, non-integer tag, tag text of another length, another byte,
also one below '0') gives an error, with `moved = false` and no payload. -/
theorem slotsmgrtExecWrapper_classifies (s : Slot) (hkey : Bytes) (database : Int)
    (seed : Nat) (multi : List redis.Resp) (st : State)
    (migrate : sharedBackendConn) (bc : BackendConn)
    (hm : s.migrate = some migrate)
    (hc : migrate.BackendConn database seed true = some bc) :
    (∀ v a a1, (forwardHelper.slotsmgrtExecWrapper s hkey database seed multi
        (some { Err := none, Resp := some (redis.Resp.mk redis.RespType.array v
          [redis.Resp.mk redis.RespType.int [48] a, a1]) }) st).1 =
        Outcome.ret (none, true, none)) ∧
    (∀ v a a1, (forwardHelper.slotsmgrtExecWrapper s hkey database seed multi
        (some { Err := none, Resp := some (redis.Resp.mk redis.RespType.array v
          [redis.Resp.mk redis.RespType.int [49] a, a1]) }) st).1 =
        Outcome.ret (none, false, none)) ∧
    (∀ v a a1, (forwardHelper.slotsmgrtExecWrapper s hkey database seed multi
        (some { Err := none, Resp := some (redis.Resp.mk redis.RespType.array v
          [redis.Resp.mk redis.RespType.int [50] a, a1]) }) st).1 =
        Outcome.ret (some a1, false, none)) ∧
    (∀ reply : Option redis.Resp,
      (∀ v a a1 b, reply = some (redis.Resp.mk redis.RespType.array v
          [redis.Resp.mk redis.RespType.int [b] a, a1]) →
        b < 256 ∧ b ≠ 48 ∧ b ≠ 49 ∧ b ≠ 50) →
      ∃ e, (forwardHelper.slotsmgrtExecWrapper s hkey database seed multi
        (some { Err := none, Resp := reply }) st).1 = Outcome.ret (none, false, some e)) := by
  refine ⟨?_, ?_, ?_, ?_⟩
  · intro v a a1
    rw [slotsmgrtExecWrapper_completed s hkey database seed multi _ st migrate bc hm hc,
      wrapperResult_tag]
  · intro v a a1
    rw [slotsmgrtExecWrapper_completed s hkey database seed multi _ st migrate bc hm hc,
      wrapperResult_tag]
  · intro v a a1
    rw [slotsmgrtExecWrapper_completed s hkey database seed multi _ st migrate bc hm hc,
      wrapperResult_tag]
  · intro reply h
    obtain ⟨e, he⟩ := wrapperResult_other reply h
    refine ⟨e, ?_⟩
    rw [slotsmgrtExecWrapper_completed s hkey database seed multi _ st migrate bc hm hc, he]

theorem slotsmgrtExecWrapper_classifies_witness :
    sampleSlot.migrate = some (samplePool 2) ∧
    (samplePool 2).BackendConn 0 5 true = some { id := 2 } ∧
    (forwardHelper.slotsmgrtExecWrapper sampleSlot sampleKey 0 5 []
      (some { Err := none, Resp := some (redis.Resp.mk redis.RespType.array []
        [redis.Resp.mk redis.RespType.int [50] [], sampleOK]) }) sampleState).1 =
      Outcome.ret (some sampleOK, false, none) ∧
    ∃ e, (forwardHelper.slotsmgrtExecWrapper sampleSlot sampleKey 0 5 []
      (some { Err := none, Resp := some (wrapperReply 47 sampleOK) }) sampleState).1 =
      Outcome.ret (none, false, some e) :=
  ⟨rfl, rfl,
    (slotsmgrtExecWrapper_classifies sampleSlot sampleKey 0 5 [] sampleState (samplePool 2)
      { id := 2 } rfl rfl).2.2.1 [] [] sampleOK,
    (slotsmgrtExecWrapper_classifies sampleSlot sampleKey 0 5 [] sampleState (samplePool 2)
      { id := 2 } rfl rfl).2.2.2 (some (wrapperReply 47 sampleOK))
      (by
        intro v a a1 b h
        simp only [wrapperReply, Option.some.injEq, redis.Resp.mk.injEq, List.cons.injEq] at h
        obtain ⟨-, -, ⟨-, hb, -⟩, -⟩ := h
        omega)⟩

/-- C8. Semi-asynchronous strategy, slot with a primary and a migration source,
non-empty hash key: when the wrapper reply has tag 2 and payload `p`, `Forward`
returns nil in that same iteration with `Resp` of the request set to `p`. The
only event is the wrapper sub-request: the request is pushed to no connection,
nothing is slept, and `refs` and `Group` are as before. -/
theorem forwardSemiAsync_tag2 (s : Slot) (hkey : Bytes) (ms : List Completion) (loop : Nat)
    (st : State) (backend migrate : sharedBackendConn) (bc : BackendConn)
    (v : Bytes) (a : List redis.Resp) (p : redis.Resp)
    (hb : s.backend = some backend) (hm : s.migrate = some migrate)
    (hc : migrate.BackendConn st.r.Database st.r.Seed16 true = some bc)
    (hk : hkey ≠ []) :
    forwardSemiAsync.Forward s hkey
      ({ Err := none, Resp := some (redis.Resp.mk redis.RespType.array v
          [redis.Resp.mk redis.RespType.int [50] a, p]) } :: ms) loop st =
      (Outcome.ret none,
        { st with
          r := { st.r with Resp := some p },
          trace := st.trace ++ [Event.migrate bc
            ([redis.NewBulkBytes SLOTSMGRT_EXEC_WRAPPER, redis.NewBulkBytes hkey] ++
              st.r.Multi)] }) := by
  have hlen : hkey.length ≠ 0 := by
    intro h
    exact hk (List.length_eq_zero.mp h)
  simp only [forwardSemiAsync.Forward, forwardSemiAsync.iteration, forwardSemiAsync.process]
  rw [slotsmgrtExecWrapper_completed s hkey st.r.Database st.r.Seed16 st.r.Multi _ st migrate
    bc hm hc, wrapperResult_tag]
  simp [hb, hm, hlen]

theorem forwardSemiAsync_tag2_witness :
    sampleSlot.backend = some (samplePool 1) ∧ sampleSlot.migrate = some (samplePool 2) ∧
    (samplePool 2).BackendConn sampleState.r.Database sampleState.r.Seed16 true =
      some { id := 2 } ∧
    sampleKey ≠ [] ∧
    forwardSemiAsync.Forward sampleSlot sampleKey
      [{ Err := none, Resp := some (redis.Resp.mk redis.RespType.array []
          [redis.Resp.mk redis.RespType.int [50] [], sampleOK]) }] 0 sampleState =
      (Outcome.ret none,
        { sampleState with
          r := { sampleState.r with Resp := some sampleOK },
          trace := sampleState.trace ++ [Event.migrate { id := 2 }
            ([redis.NewBulkBytes SLOTSMGRT_EXEC_WRAPPER, redis.NewBulkBytes sampleKey] ++
              sampleState.r.Multi)] }) :=
  ⟨rfl, rfl, rfl, by decide,
    forwardSemiAsync_tag2 sampleSlot sampleKey [] 0 sampleState (samplePool 1) (samplePool 2)
      { id := 2 } [] [] sampleOK rfl rfl rfl (by decide)⟩

/-! ### Target selection -/

theorem forward2Probe_steps (group : List sharedBackendConn) (database : Int) (seed : Nat)
    (hn : group.length ≠ 0) :
    ∀ k i : Nat,
      (forwardHelper.forward2Probe group database seed i k = Outcome.ret none ∧
        ∀ t, 1 ≤ t → t ≤ k → ∀ p, group[(i + t) % group.length]? = some p →
          p.BackendConn database seed false = none) ∨
      (∃ p ∈ group, ∃ bc, p.BackendConn database seed false = some bc ∧
        forwardHelper.forward2Probe group database seed i k = Outcome.ret (some bc)) := by
  intro k
  induction k with
  | zero =>
    intro i
    left
    refine ⟨by simp [forwardHelper.forward2Probe], ?_⟩
    intro t h1 h2
    omega
  | succ k ih =>
    intro i
    have hlt : (i + 1) % group.length < group.length :=
      Nat.mod_lt _ (Nat.pos_of_ne_zero hn)
    have hget : group[(i + 1) % group.length]? = some (group[(i + 1) % group.length]) :=
      List.getElem?_eq_getElem hlt
    cases hlive : (group[(i + 1) % group.length]).BackendConn database seed false with
    | some bc =>
      right
      refine ⟨group[(i + 1) % group.length], List.getElem_mem hlt, bc, hlive, ?_⟩
      simp [forwardHelper.forward2Probe, hn, hget, hlive]
    | none =>
      have hstep : forwardHelper.forward2Probe group database seed i (k + 1) =
          forwardHelper.forward2Probe group database seed ((i + 1) % group.length) k := by
        simp [forwardHelper.forward2Probe, hn, hget, hlive]
      rcases ih ((i + 1) % group.length) with ⟨h1, h2⟩ | ⟨p, hp, bc, h1, h2⟩
      · left
        refine ⟨by rw [hstep, h1], ?_⟩
        intro t ht1 ht2 p hp
        by_cases ht : t = 1
        · subst ht
          rw [hget] at hp
          cases hp
          exact hlive
        · have heq : ((i + 1) % group.length + (t - 1)) % group.length =
              (i + t) % group.length := by
            rw [Nat.mod_add_mod]
            congr 1
            omega
          exact h2 (t - 1) (by omega) (by omega) p (by rw [heq]; exact hp)
      · right
        exact ⟨p, hp, bc, h1, by rw [hstep, h2]⟩

theorem round_robin_reaches (n seed j : Nat) (hj : j < n) :
    ∃ t, 1 ≤ t ∧ t ≤ n ∧ (seed + t) % n = j := by
  have hn : 0 < n := by omega
  have ha : seed % n < n := Nat.mod_lt _ hn
  refine ⟨(j + n - 1 - seed % n) % n + 1, by omega, ?_, ?_⟩
  · have := Nat.mod_lt (j + n - 1 - seed % n) hn
    omega
  · have h1 : seed + ((j + n - 1 - seed % n) % n + 1) =
        (seed + 1) + (j + n - 1 - seed % n) % n := by omega
    rw [h1, Nat.add_mod_mod]
    have h2 : seed + 1 + (j + n - 1 - seed % n) = seed + (1 + (j + n - 1 - seed % n)) := by
      omega
    rw [h2, ← Nat.mod_add_mod]
    have h3 : seed % n + (1 + (j + n - 1 - seed % n)) = j + n := by omega
    rw [h3, Nat.add_mod_right]
    exact Nat.mod_eq_of_lt hj

theorem forward2Probe_group (group : List sharedBackendConn) (database : Int) (seed : Nat) :
    (forwardHelper.forward2Probe group database seed seed group.length = Outcome.ret none ∧
      ∀ p ∈ group, p.BackendConn database seed false = none) ∨
    (∃ p ∈ group, ∃ bc, p.BackendConn database seed false = some bc ∧
      forwardHelper.forward2Probe group database seed seed group.length =
        Outcome.ret (some bc)) := by
  by_cases hn : group.length = 0
  · left
    have hnil : group = [] := List.length_eq_zero.mp hn
    subst hnil
    simp [forwardHelper.forward2Probe]
  · rcases forward2Probe_steps group database seed hn group.length seed with
      ⟨h1, h2⟩ | h
    · left
      refine ⟨h1, ?_⟩
      intro p hp
      obtain ⟨j, hj, hjp⟩ := List.getElem_of_mem hp
      obtain ⟨t, ht1, ht2, ht3⟩ := round_robin_reaches group.length seed j hj
      apply h2 t ht1 ht2 p
      rw [ht3, List.getElem?_eq_getElem hj, hjp]
    · right
      exact h

theorem forward2Groups_result (database : Int) (seed : Nat)
    (groups : List (List sharedBackendConn)) :
    (forwardHelper.forward2Groups database seed groups = Outcome.ret none ∧
      ∀ g ∈ groups, ∀ p ∈ g, p.BackendConn database seed false = none) ∨
    (∃ g ∈ groups, ∃ p ∈ g, ∃ bc, p.BackendConn database seed false = some bc ∧
      forwardHelper.forward2Groups database seed groups = Outcome.ret (some bc)) := by
  induction groups with
  | nil =>
    left
    simp [forwardHelper.forward2Groups]
  | cons g rest ih =>
    rcases forward2Probe_group g database seed with ⟨h1, h2⟩ | ⟨p, hp, bc, h1, h2⟩
    · rcases ih with ⟨h3, h4⟩ | ⟨g1, hg1, p, hp, bc, h3, h4⟩
      · left
        refine ⟨by simp [forwardHelper.forward2Groups, h1, h3], ?_⟩
        intro g1 hg1 p hp
        rcases List.mem_cons.mp hg1 with h | h
        · subst h
          exact h2 p hp
        · exact h4 g1 h p hp
      · right
        exact ⟨g1, List.mem_cons_of_mem _ hg1, p, hp, bc, h3,
          by simp [forwardHelper.forward2Groups, h1, h4]⟩
    · right
      exact ⟨g, List.mem_cons_self _ _, p, hp, bc, h1,
        by simp [forwardHelper.forward2Groups, h2]⟩

/-- C10. Target selection for a slot with primary pool `primary`. The master
connection of the primary is returned whenever a migration source is set, or
the command is not read-only, or there is no replica group. For a read-only
command without migration and with replica groups: if some member of some group
has a live connection for `(database, seed)`, the connection returned is the
live connection of a replica; if no member of any group is live, the master
connection of the primary is returned. With `replicaGroups = [[B]]` and `B`
live the request goes to the connection of `B`. -/
theorem forward2_target (s : Slot) (r : Request) (primary : sharedBackendConn)
    (hp : s.backend = some primary) :
    ((s.migrate.isSome = true ∨ r.OpFlag.IsReadOnly = false ∨ s.replicaGroups = []) →
      forwardHelper.forward2 s r =
        Outcome.ret (primary.BackendConn r.Database r.Seed16 true)) ∧
    (s.migrate = none → r.OpFlag.IsReadOnly = true → s.replicaGroups ≠ [] →
      ((∃ g ∈ s.replicaGroups, ∃ p ∈ g, p.BackendConn r.Database r.Seed16 false ≠ none) →
        ∃ g ∈ s.replicaGroups, ∃ p ∈ g, ∃ bc,
          p.BackendConn r.Database r.Seed16 false = some bc ∧
          forwardHelper.forward2 s r = Outcome.ret (some bc)) ∧
      ((∀ g ∈ s.replicaGroups, ∀ p ∈ g, p.BackendConn r.Database r.Seed16 false = none) →
        forwardHelper.forward2 s r =
          Outcome.ret (primary.BackendConn r.Database r.Seed16 true))) ∧
    (∀ B bc, s.migrate = none → r.OpFlag.IsReadOnly = true → s.replicaGroups = [[B]] →
      B.BackendConn r.Database r.Seed16 false = some bc →
      forwardHelper.forward2 s r = Outcome.ret (some bc)) := by
  have hgroups : s.migrate = none → r.OpFlag.IsReadOnly = true → s.replicaGroups ≠ [] →
      forwardHelper.forward2 s r =
        match forwardHelper.forward2Groups r.Database r.Seed16 s.replicaGroups with
        | Outcome.ret (some bc) => Outcome.ret (some bc)
        | Outcome.ret none => Outcome.ret (primary.BackendConn r.Database r.Seed16 true)
        | Outcome.panics => Outcome.panics
        | Outcome.wait => Outcome.wait := by
    intro h1 h2 h3
    have h3 : s.replicaGroups.length ≠ 0 := fun h => h3 (List.length_eq_zero.mp h)
    simp [forwardHelper.forward2, forwardHelper.master, hp, h1, h2, h3]
  refine ⟨?_, ?_, ?_⟩
  · intro h
    rcases h with h | h | h
    · cases hm : s.migrate with
      | none => rw [hm] at h; simp at h
      | some m => simp [forwardHelper.forward2, forwardHelper.master, hp, hm]
    · simp [forwardHelper.forward2, forwardHelper.master, hp, h]
    · simp [forwardHelper.forward2, forwardHelper.master, hp, h]
  · intro h1 h2 h3
    have hf := hgroups h1 h2 h3
    rcases forward2Groups_result r.Database r.Seed16 s.replicaGroups with
      ⟨h4, h5⟩ | ⟨g, hg, p, hp1, bc, h4, h5⟩
    · constructor
      · rintro ⟨g, hg, p, hp1, hlive⟩
        exact absurd (h5 g hg p hp1) hlive
      · intro _
        rw [hf, h4]
    · constructor
      · intro _
        exact ⟨g, hg, p, hp1, bc, h4, by rw [hf, h5]⟩
      · intro hdead
        rw [hdead g hg p hp1] at h4
        cases h4
  · intro B bc h1 h2 h3 h4
    have hf := hgroups h1 h2 (by rw [h3]; simp)
    rw [hf, h3]
    simp [forwardHelper.forward2Groups, forwardHelper.forward2Probe, Nat.mod_one, h4]

theorem forward2_target_witness :
    sampleSlotReplica.backend = some (samplePool 1) ∧
    sampleSlotReplica.migrate = none ∧ sampleRead.OpFlag.IsReadOnly = true ∧
    sampleSlotReplica.replicaGroups = [[samplePool 3]] ∧
    (samplePool 3).BackendConn sampleRead.Database sampleRead.Seed16 false =
      some { id := 3 } ∧
    forwardHelper.forward2 sampleSlotReplica sampleRead = Outcome.ret (some { id := 3 }) :=
  ⟨rfl, rfl, rfl, rfl, rfl,
    (forward2_target sampleSlotReplica sampleRead (samplePool 1) rfl).2.2
      (samplePool 3) { id := 3 } rfl rfl rfl rfl⟩

/-! ### Routing happens at most once -/

theorem forwards_append (a b : List Event) : forwards (a ++ b) = forwards a ++ forwards b := by
  induction a with
  | nil => simp [forwards]
  | cons e es ih => cases e <;> simp [forwards, ih]

theorem Unrouted.refl (st : State) : Unrouted st st := ⟨rfl, rfl, rfl⟩

theorem Unrouted.migrate (st : State) (bc : BackendConn) (multi : List redis.Resp) :
    Unrouted st { st with trace := st.trace ++ [Event.migrate bc multi] } :=
  ⟨rfl, rfl, by simp [forwards_append, forwards]⟩

theorem forward2_some (s : Slot) (r : Request) (primary : sharedBackendConn)
    (hp : s.backend = some primary)
    (hm : ∀ database seed, primary.BackendConn database seed true ≠ none) :
    ∃ bc, forwardHelper.forward2 s r = Outcome.ret (some bc) := by
  obtain ⟨m, hmaster⟩ := Option.ne_none_iff_exists'.mp (hm r.Database r.Seed16)
  have hmst : forwardHelper.master s r.Database r.Seed16 = some m := by
    simp [forwardHelper.master, hp, hmaster]
  by_cases hc : (s.migrate.isNone && r.OpFlag.IsReadOnly && s.replicaGroups.length ≠ 0) = true
  · rcases forward2Groups_result r.Database r.Seed16 s.replicaGroups with
      ⟨h1, _⟩ | ⟨g, _, p, _, bc, _, h1⟩
    · exact ⟨m, by simp only [forwardHelper.forward2, hc, ↓reduceIte, h1, hmst]⟩
    · exact ⟨bc, by simp only [forwardHelper.forward2, hc, ↓reduceIte, h1]⟩
  · exact ⟨m, by simp only [forwardHelper.forward2, hc, ↓reduceIte, hmst, Bool.false_eq_true]⟩

theorem slotsmgrt_shape (s : Slot) (hkey : Bytes) (database : Int) (seed : Nat)
    (done : Option Completion) (st : State) :
    ∃ st0 o, forwardHelper.slotsmgrt s hkey database seed done st = (o, st0) ∧
      Unrouted st st0 := by
  unfold forwardHelper.slotsmgrt
  split
  · split
    · exact ⟨_, _, rfl, Unrouted.refl st⟩
    · split
      · exact ⟨_, _, rfl, Unrouted.migrate st _ _⟩
      · exact ⟨_, _, rfl, Unrouted.migrate st _ _⟩
  · exact ⟨_, _, rfl, Unrouted.refl st⟩

theorem forwardSync_process_cases (s : Slot) (hkey : Bytes) (done : Option Completion)
    (st : State) (p : sharedBackendConn) (hb : s.backend = some p)
    (hm : ∀ database seed, p.BackendConn database seed true ≠ none) :
    ∃ st0, Unrouted st st0 ∧
      ((∃ bc, forwardSync.process s hkey done st =
          (Outcome.ret (some bc, none),
            { st0 with r := { st0.r with Group := some s.id }, refs := st0.refs + 1 })) ∨
        (∃ e, forwardSync.process s hkey done st = (Outcome.ret (none, some e), st0)) ∨
        forwardSync.process s hkey done st = (Outcome.panics, st0) ∨
        forwardSync.process s hkey done st = (Outcome.wait, st0)) := by
  have hsel : ∀ st0 : State, ∃ bc,
      forwardHelper.forward2 s { st0.r with Group := some s.id } = Outcome.ret (some bc) :=
    fun st0 => forward2_some s _ p hb hm
  simp only [forwardSync.process, hb, Option.isNone_some, Bool.false_eq_true, ↓reduceIte]
  by_cases hcond : (s.migrate.isSome && decide (hkey.length ≠ 0)) = true
  · simp only [hcond, ↓reduceIte]
    obtain ⟨st0, o, ho, hu⟩ := slotsmgrt_shape s hkey st.r.Database st.r.Seed16 done st
    rw [ho]
    refine ⟨st0, hu, ?_⟩
    cases o with
    | ret e =>
      cases e with
      | some e => right; left; exact ⟨e, rfl⟩
      | none =>
        left
        obtain ⟨bc, hbc⟩ := hsel st0
        exact ⟨bc, by simp only [hbc]⟩
    | panics => right; right; left; rfl
    | wait => right; right; right; rfl
  · simp only [hcond, Bool.false_eq_true, ↓reduceIte]
    refine ⟨st, Unrouted.refl st, ?_⟩
    left
    obtain ⟨bc, hbc⟩ := hsel st
    exact ⟨bc, by simp only [hbc]⟩

theorem forwardSync_routes (s : Slot) (hkey : Bytes) (done : Option Completion) (st : State)
    (hm : ∀ p, s.backend = some p → ∀ database seed, p.BackendConn database seed true ≠ none) :
    ∀ res, forwardSync.Forward s hkey done st = res →
      (res.1 = Outcome.ret none ∧ RoutedOnce s st res.2) ∨
      (res.1 ≠ Outcome.ret none ∧ Unrouted st res.2) := by
  intro res hres
  cases hb : s.backend with
  | none =>
    right
    rw [← hres]
    simp [forwardSync.Forward, forwardSync.process, hb, Unrouted.refl]
  | some p =>
    obtain ⟨st0, hu, h⟩ := forwardSync_process_cases s hkey done st p hb (hm p hb)
    rcases h with ⟨bc, h⟩ | ⟨e, h⟩ | h | h
    · left
      rw [← hres]
      simp only [forwardSync.Forward, h]
      refine ⟨trivial, ?_, rfl, bc, ?_⟩
      · simp [hu.1]
      · simp [forwards_append, forwards, hu.2.2]
    · right
      rw [← hres]
      simp only [forwardSync.Forward, h]
      exact ⟨by simp, hu⟩
    · right
      rw [← hres]
      simp only [forwardSync.Forward, h]
      exact ⟨by simp, hu⟩
    · right
      rw [← hres]
      simp only [forwardSync.Forward, h]
      exact ⟨by simp, hu⟩

theorem Unrouted.trans {a b c : State} (h1 : Unrouted a b) (h2 : Unrouted b c) :
    Unrouted a c :=
  ⟨h2.1.trans h1.1, h2.2.1.trans h1.2.1, h2.2.2.trans h1.2.2⟩

theorem RoutedOnce.after {s : Slot} {a b c : State} (h1 : Unrouted a b)
    (h2 : RoutedOnce s b c) : RoutedOnce s a c := by
  obtain ⟨h3, h4, bc, h5⟩ := h2
  exact ⟨by rw [h3, h1.1], h4, bc, by rw [h5, h1.2.2]⟩

theorem slotsmgrtExecWrapper_shape (s : Slot) (hkey : Bytes) (database : Int) (seed : Nat)
    (multi : List redis.Resp) (done : Option Completion) (st : State) :
    ∃ st0 o, forwardHelper.slotsmgrtExecWrapper s hkey database seed multi done st = (o, st0) ∧
      Unrouted st st0 := by
  unfold forwardHelper.slotsmgrtExecWrapper
  split
  · split
    · exact ⟨_, _, rfl, Unrouted.refl st⟩
    · split
      · exact ⟨_, _, rfl, Unrouted.migrate st _ _⟩
      · exact ⟨_, _, rfl, Unrouted.migrate st _ _⟩
  · exact ⟨_, _, rfl, Unrouted.refl st⟩

theorem forwardSemiAsync_process_cases (s : Slot) (hkey : Bytes) (done : Option Completion)
    (st : State) (p : sharedBackendConn) (hb : s.backend = some p)
    (hm : ∀ database seed, p.BackendConn database seed true ≠ none) :
    ∃ st0, Unrouted st st0 ∧
      ((∃ bc, forwardSemiAsync.process s hkey done st =
          (Outcome.ret (some bc, false, none),
            { st0 with r := { st0.r with Group := some s.id }, refs := st0.refs + 1 })) ∨
        (∃ e, forwardSemiAsync.process s hkey done st =
          (Outcome.ret (none, false, some e), st0)) ∨
        forwardSemiAsync.process s hkey done st = (Outcome.ret (none, false, none), st0) ∨
        forwardSemiAsync.process s hkey done st = (Outcome.ret (none, true, none), st0) ∨
        forwardSemiAsync.process s hkey done st = (Outcome.panics, st0) ∨
        forwardSemiAsync.process s hkey done st = (Outcome.wait, st0)) := by
  have hsel : ∀ st0 : State, ∃ bc,
      forwardHelper.forward2 s { st0.r with Group := some s.id } = Outcome.ret (some bc) :=
    fun st0 => forward2_some s _ p hb hm
  simp only [forwardSemiAsync.process, hb, Option.isNone_some, Bool.false_eq_true, ↓reduceIte]
  by_cases hcond : (s.migrate.isSome && decide (hkey.length ≠ 0)) = true
  · simp only [hcond, ↓reduceIte]
    obtain ⟨st0, o, ho, hu⟩ :=
      slotsmgrtExecWrapper_shape s hkey st.r.Database st.r.Seed16 st.r.Multi done st
    rw [ho]
    cases o with
    | ret x =>
      obtain ⟨resp, moved, err⟩ := x
      cases err with
      | some e =>
        refine ⟨st0, hu, Or.inr (Or.inl ⟨e, ?_⟩)⟩
        cases resp <;> cases moved <;> rfl
      | none =>
        cases moved with
        | true =>
          obtain ⟨bc, hbc⟩ := hsel st0
          refine ⟨st0, hu, Or.inl ⟨bc, ?_⟩⟩
          cases resp <;> simp only [hbc]
        | false =>
          cases resp with
          | some resp =>
            exact ⟨{ st0 with r := { st0.r with Resp := some resp } },
              ⟨hu.1, hu.2.1, hu.2.2⟩, Or.inr (Or.inr (Or.inl rfl))⟩
          | none => exact ⟨st0, hu, Or.inr (Or.inr (Or.inr (Or.inl rfl)))⟩
    | panics => exact ⟨st0, hu, Or.inr (Or.inr (Or.inr (Or.inr (Or.inl rfl))))⟩
    | wait => exact ⟨st0, hu, Or.inr (Or.inr (Or.inr (Or.inr (Or.inr rfl))))⟩
  · simp only [hcond, Bool.false_eq_true, ↓reduceIte]
    refine ⟨st, Unrouted.refl st, ?_⟩
    left
    obtain ⟨bc, hbc⟩ := hsel st
    exact ⟨bc, by simp only [hbc]⟩

theorem forwardSemiAsync_iteration_cases (s : Slot) (hkey : Bytes) (done : Option Completion)
    (loop : Nat) (st : State)
    (hm : ∀ p, s.backend = some p → ∀ database seed, p.BackendConn database seed true ≠ none) :
    (∃ st1, forwardSemiAsync.iteration s hkey done loop st =
        forwardSemiAsync.Iteration.done (Outcome.ret none) st1 ∧ RoutedOnce s st st1) ∨
    (∃ o st1, forwardSemiAsync.iteration s hkey done loop st =
        forwardSemiAsync.Iteration.done o st1 ∧ Unrouted st st1) ∨
    (∃ st1, forwardSemiAsync.iteration s hkey done loop st =
        forwardSemiAsync.Iteration.again st1 ∧ Unrouted st st1) := by
  cases hb : s.backend with
  | none =>
    right; left
    exact ⟨Outcome.ret (some Error.ErrSlotIsNotReady), st,
      by simp [forwardSemiAsync.iteration, forwardSemiAsync.process, hb], Unrouted.refl st⟩
  | some p =>
    obtain ⟨st0, hu, h⟩ := forwardSemiAsync_process_cases s hkey done st p hb (hm p hb)
    rcases h with ⟨bc, h⟩ | ⟨e, h⟩ | h | h | h | h
    · left
      refine ⟨{ st0 with
          r := { st0.r with Group := some s.id }
          refs := st0.refs + 1
          trace := st0.trace ++ [Event.forward bc { st0.r with Group := some s.id }] },
        by simp only [forwardSemiAsync.iteration, h], ?_, rfl, bc, ?_⟩
      · simp [hu.1]
      · simp [forwards_append, forwards, hu.2.2]
    · right; left
      exact ⟨Outcome.ret (some e), st0, by simp only [forwardSemiAsync.iteration, h], hu⟩
    · right; left
      exact ⟨Outcome.ret none, st0, by simp only [forwardSemiAsync.iteration, h], hu⟩
    · have hu1 : Unrouted st
          { st0 with trace := st0.trace ++ [Event.sleep (forwardSemiAsync.delay loop)] } :=
        ⟨hu.1, hu.2.1, by simp [forwards_append, forwards, hu.2.2]⟩
      cases hbr : st0.r.IsBroken loop with
      | true =>
        right; left
        exact ⟨Outcome.ret (some Error.ErrRequestIsBroken), _,
          by simp only [forwardSemiAsync.iteration, h, hbr, ↓reduceIte], hu1⟩
      | false =>
        right; right
        exact ⟨_, by simp only [forwardSemiAsync.iteration, h, hbr, Bool.false_eq_true,
          ↓reduceIte], hu1⟩
    · right; left
      exact ⟨Outcome.panics, st0, by simp only [forwardSemiAsync.iteration, h], hu⟩
    · right; left
      exact ⟨Outcome.wait, st0, by simp only [forwardSemiAsync.iteration, h], hu⟩

theorem forwardSemiAsync_routes (s : Slot) (hkey : Bytes)
    (hm : ∀ p, s.backend = some p → ∀ database seed, p.BackendConn database seed true ≠ none)
    (comps : List Completion) :
    ∀ (loop : Nat) (st : State),
      ((forwardSemiAsync.Forward s hkey comps loop st).1 = Outcome.ret none ∧
        RoutedOnce s st (forwardSemiAsync.Forward s hkey comps loop st).2) ∨
      Unrouted st (forwardSemiAsync.Forward s hkey comps loop st).2 := by
  induction comps with
  | nil =>
    intro loop st
    rcases forwardSemiAsync_iteration_cases s hkey none loop st hm with
      ⟨st1, h, hr⟩ | ⟨o, st1, h, hu⟩ | ⟨st1, h, hu⟩
    · left; simp only [forwardSemiAsync.Forward, h]; exact ⟨trivial, hr⟩
    · right; simp only [forwardSemiAsync.Forward, h]; exact hu
    · right; simp only [forwardSemiAsync.Forward, h]; exact hu
  | cons m ms ih =>
    intro loop st
    rcases forwardSemiAsync_iteration_cases s hkey (some m) loop st hm with
      ⟨st1, h, hr⟩ | ⟨o, st1, h, hu⟩ | ⟨st1, h, hu⟩
    · left; simp only [forwardSemiAsync.Forward, h]; exact ⟨trivial, hr⟩
    · right; simp only [forwardSemiAsync.Forward, h]; exact hu
    · simp only [forwardSemiAsync.Forward, h]
      rcases ih (loop + 1) st1 with ⟨h1, h2⟩ | h1
      · left; exact ⟨h1, RoutedOnce.after hu h2⟩
      · right; exact Unrouted.trans hu h1

/-! ### The order of replica probing -/

theorem forward2ProbeTrace_fst (group : List sharedBackendConn) (database : Int) (seed : Nat) :
    ∀ k i : Nat, (forwardHelper.forward2ProbeTrace group database seed i k).1 =
      forwardHelper.forward2Probe group database seed i k := by
  intro k
  induction k with
  | zero => intro i; simp [forwardHelper.forward2ProbeTrace, forwardHelper.forward2Probe]
  | succ k ih =>
    intro i
    unfold forwardHelper.forward2ProbeTrace forwardHelper.forward2Probe
    by_cases hn : group.length = 0
    · simp [hn]
    · simp only [hn, ↓reduceIte]
      cases hg : group[(i + 1) % group.length]? with
      | none => simp
      | some p =>
        cases hl : p.BackendConn database seed false with
        | some bc => simp [hl]
        | none => simp [hl, ih]

theorem range_succ_order (i n k : Nat) :
    (List.range (k + 1)).map (fun t => (i + 1 + t) % n) =
      (i + 1) % n :: (List.range k).map (fun t => ((i + 1) % n + 1 + t) % n) := by
  rw [List.range_succ_eq_map, List.map_cons, List.map_map]
  congr 1
  apply List.map_congr_left
  intro t _
  simp only [Function.comp]
  have h : (i + 1) % n + 1 + t = (i + 1) % n + (1 + t) := by omega
  rw [h, Nat.mod_add_mod]
  congr 1
  omega

theorem forward2ProbeTrace_order (group : List sharedBackendConn) (database : Int) (seed : Nat)
    (hn : group.length ≠ 0) :
    ∀ k i : Nat,
      (forwardHelper.forward2ProbeTrace group database seed i k).2 <+:
        (List.range k).map (fun t => (i + 1 + t) % group.length) ∧
      forwardHelper.forward2Probe group database seed i k =
        Outcome.ret (((List.range k).map (fun t => (i + 1 + t) % group.length)).findSome?
          (fun j => (group[j]?).bind (fun p => p.BackendConn database seed false))) ∧
      (∀ j ∈ (forwardHelper.forward2ProbeTrace group database seed i k).2,
        j < group.length) := by
  intro k
  induction k with
  | zero =>
    intro i
    simp [forwardHelper.forward2ProbeTrace, forwardHelper.forward2Probe]
  | succ k ih =>
    intro i
    have hlt : (i + 1) % group.length < group.length :=
      Nat.mod_lt _ (Nat.pos_of_ne_zero hn)
    have hget : group[(i + 1) % group.length]? = some (group[(i + 1) % group.length]) :=
      List.getElem?_eq_getElem hlt
    rw [range_succ_order]
    obtain ⟨h1, h2, h3⟩ := ih ((i + 1) % group.length)
    cases hl : (group[(i + 1) % group.length]).BackendConn database seed false with
    | some bc =>
      refine ⟨?_, ?_, ?_⟩
      · simp [forwardHelper.forward2ProbeTrace, hn, hget, hl, List.prefix_cons_inj,
          List.nil_prefix]
      · simp [forwardHelper.forward2Probe, hn, hget, hl, List.findSome?_cons]
      · simp [forwardHelper.forward2ProbeTrace, hn, hget, hl, hlt]
    | none =>
      refine ⟨?_, ?_, ?_⟩
      · simp only [forwardHelper.forward2ProbeTrace, hn, hget, hl, ↓reduceIte]
        exact (List.prefix_cons_inj _).mpr h1
      · simp only [forwardHelper.forward2Probe, hn, hget, hl, ↓reduceIte]
        rw [h2]
        simp [List.findSome?_cons, hget, hl]
      · simp only [forwardHelper.forward2ProbeTrace, hn, hget, hl, ↓reduceIte]
        intro j hj
        rcases List.mem_cons.mp hj with h | h
        · rw [h]; exact hlt
        · exact h3 j h

theorem probeOrder_nodup (seed n : Nat) : (probeOrder seed n).Nodup := by
  unfold probeOrder
  refine (List.nodup_map_iff_inj_on (List.nodup_range n)).mpr ?_
  intro x hx y hy hxy
  have hx1 : x < n := List.mem_range.mp hx
  have hy1 : y < n := List.mem_range.mp hy
  have h : x ≡ y [MOD n] := Nat.ModEq.add_left_cancel' (seed + 1) hxy
  exact Nat.ModEq.eq_of_lt_of_lt h hx1 hy1

theorem forward2ProbeTrace_head (group : List sharedBackendConn) (database : Int) (seed : Nat)
    (hn : group.length ≠ 0) (i k : Nat) :
    (forwardHelper.forward2ProbeTrace group database seed i (k + 1)).2.head? =
      some ((i + 1) % group.length) := by
  unfold forwardHelper.forward2ProbeTrace
  simp only [hn, ↓reduceIte]
  split
  · rfl
  · split <;> rfl

/-- C11, as amended. Replica probing is a round-robin that starts right after
the seed. For a replica group of `n ≥ 1` members and every seed, the members
are probed at the indices `seed + 1, seed + 2, ...` modulo `n`, in this order
and starting with index `(seed + 1) mod n`; these `n` indices are distinct, so
every member is probed at most once; and the connection returned is that of the
first live member in this order, or none when no member is live. -/
theorem forward2_probe_round_robin (group : List sharedBackendConn) (database : Int)
    (seed : Nat) (hn : group.length ≠ 0) :
    (forwardHelper.forward2ProbeTrace group database seed seed group.length).2 <+:
      probeOrder seed group.length ∧
    (forwardHelper.forward2ProbeTrace group database seed seed group.length).2.head? =
      some ((seed + 1) % group.length) ∧
    (probeOrder seed group.length).Nodup ∧
    (forwardHelper.forward2ProbeTrace group database seed seed group.length).2.Nodup ∧
    forwardHelper.forward2Probe group database seed seed group.length =
      Outcome.ret ((probeOrder seed group.length).findSome?
        (fun j => (group[j]?).bind (fun p => p.BackendConn database seed false))) ∧
    (forwardHelper.forward2ProbeTrace group database seed seed group.length).1 =
      forwardHelper.forward2Probe group database seed seed group.length := by
  obtain ⟨h1, h2, _⟩ := forward2ProbeTrace_order group database seed hn group.length seed
  have hnd := probeOrder_nodup seed group.length
  refine ⟨h1, ?_, hnd, hnd.sublist h1.sublist, h2, forward2ProbeTrace_fst _ _ _ _ _⟩
  obtain ⟨m, hm⟩ := Nat.exists_eq_succ_of_ne_zero hn
  rw [hm]
  have := forward2ProbeTrace_head group database seed hn seed m
  rw [hm] at this
  exact this

theorem forward2_probe_round_robin_witness :
    [samplePool 3, samplePool 4].length ≠ 0 ∧
    (forwardHelper.forward2ProbeTrace [samplePool 3, samplePool 4] 0 5 5 2).2.head? =
      some ((5 + 1) % 2) :=
  ⟨by decide, (forward2_probe_round_robin [samplePool 3, samplePool 4] 0 5 (by decide)).2.1⟩

/-- C11, as stated, fails: with the replica group `[B3, B4]`, both live, and the
read-only request at address 1, whose seed is odd, the member at index
`seed mod 2 = 1` is `B4`, but the first member probed is the one at index `0`
and the request goes to `B3`. -/
theorem forward2_probe_first_index_counterexample :
    sampleRead.Seed16 % 2 = 1 ∧
    (forwardHelper.forward2ProbeTrace [samplePool 3, samplePool 4] sampleRead.Database
      sampleRead.Seed16 sampleRead.Seed16 2).2.head? = some 0 ∧
    ¬ ((forwardHelper.forward2ProbeTrace [samplePool 3, samplePool 4] sampleRead.Database
      sampleRead.Seed16 sampleRead.Seed16 2).2.head? = some (sampleRead.Seed16 % 2)) ∧
    forwardHelper.forward2 sampleSlotTwoReplicas sampleRead =
      Outcome.ret (some { id := 3 }) := by
  refine ⟨by decide, by decide, by decide, by decide⟩

/-- C19. Replica selection is free of faults: for every slot, request, seed and
list of replica groups, also with groups of zero members, `forward2` and its
loops never panic (no division by zero, no index out of range) and are never
parked; every index used on a group is below the length of the group. -/
theorem forward2_never_faults (s : Slot) (r : Request) (group : List sharedBackendConn)
    (groups : List (List sharedBackendConn)) (database : Int) (seed : Nat) :
    (∃ bc, forwardHelper.forward2 s r = Outcome.ret bc) ∧
    (∃ bc, forwardHelper.forward2Groups database seed groups = Outcome.ret bc) ∧
    (∃ bc, forwardHelper.forward2Probe group database seed seed group.length =
      Outcome.ret bc) ∧
    (forwardHelper.forward2ProbeTrace group database seed seed group.length).1 =
      forwardHelper.forward2Probe group database seed seed group.length ∧
    (∀ j ∈ (forwardHelper.forward2ProbeTrace group database seed seed group.length).2,
      j < group.length) := by
  have hgroups : ∀ gs : List (List sharedBackendConn),
      ∃ bc, forwardHelper.forward2Groups r.Database r.Seed16 gs = Outcome.ret bc := by
    intro gs
    rcases forward2Groups_result r.Database r.Seed16 gs with ⟨h, _⟩ | ⟨_, _, _, _, bc, _, h⟩
    · exact ⟨none, h⟩
    · exact ⟨some bc, h⟩
  refine ⟨?_, ?_, ?_, forward2ProbeTrace_fst _ _ _ _ _, ?_⟩
  · obtain ⟨bc, hbc⟩ := hgroups s.replicaGroups
    unfold forwardHelper.forward2
    simp only [hbc]
    split
    · cases bc <;> exact ⟨_, rfl⟩
    · exact ⟨_, rfl⟩
  · rcases forward2Groups_result database seed groups with ⟨h, _⟩ | ⟨_, _, _, _, bc, _, h⟩
    · exact ⟨none, h⟩
    · exact ⟨some bc, h⟩
  · rcases forward2Probe_group group database seed with ⟨h, _⟩ | ⟨_, _, bc, _, h⟩
    · exact ⟨none, h⟩
    · exact ⟨some bc, h⟩
  · by_cases hn : group.length = 0
    · rw [hn]
      simp [forwardHelper.forward2ProbeTrace]
    · exact (forward2ProbeTrace_order group database seed hn group.length seed).2.2

/-! ### The back-off of the semi-asynchronous loop -/

theorem slept_append (a b : List Event) : slept (a ++ b) = slept a ++ slept b := by
  induction a with
  | nil => simp [slept]
  | cons e es ih => cases e <;> simp [slept, ih]

theorem slotsmgrtExecWrapper_slept (s : Slot) (hkey : Bytes) (database : Int) (seed : Nat)
    (multi : List redis.Resp) (done : Option Completion) (st : State) :
    slept (forwardHelper.slotsmgrtExecWrapper s hkey database seed multi done st).2.trace =
      slept st.trace := by
  unfold forwardHelper.slotsmgrtExecWrapper
  split
  · split
    · rfl
    · split <;> simp [slept_append, slept]
  · rfl

theorem forwardSemiAsync_process_slept (s : Slot) (hkey : Bytes) (done : Option Completion)
    (st : State) :
    slept (forwardSemiAsync.process s hkey done st).2.trace = slept st.trace := by
  have hw := slotsmgrtExecWrapper_slept s hkey st.r.Database st.r.Seed16 st.r.Multi done st
  unfold forwardSemiAsync.process
  split
  · rfl
  · simp only []
    split
    · split
      · rename_i heq
        rw [heq] at hw
        exact hw
      · rename_i heq
        rw [heq] at hw
        exact hw
      · rename_i heq
        rw [heq] at hw
        exact hw
      · rename_i heq
        rw [heq] at hw
        split <;> exact hw
      · rename_i heq
        rw [heq] at hw
        exact hw
      · rename_i heq
        rw [heq] at hw
        exact hw
    · split <;> rfl

theorem forwardSemiAsync_iteration_slept (s : Slot) (hkey : Bytes) (done : Option Completion)
    (loop : Nat) (st : State) :
    (∀ o st1, forwardSemiAsync.iteration s hkey done loop st =
        forwardSemiAsync.Iteration.done o st1 →
      slept st1.trace = slept st.trace ∨
        slept st1.trace = slept st.trace ++ [forwardSemiAsync.delay loop]) ∧
    (∀ st1, forwardSemiAsync.iteration s hkey done loop st =
        forwardSemiAsync.Iteration.again st1 →
      slept st1.trace = slept st.trace ++ [forwardSemiAsync.delay loop] ∧
        st1.trace.getLast? = some (Event.sleep (forwardSemiAsync.delay loop))) := by
  have hp := forwardSemiAsync_process_slept s hkey done st
  unfold forwardSemiAsync.iteration
  split
  all_goals (rename_i heq; rw [heq] at hp; simp only [] at hp)
  · exact ⟨fun o st1 h => by cases h; exact Or.inl hp, fun st1 h => by cases h⟩
  · refine ⟨fun o st1 h => ?_, fun st1 h => by cases h⟩
    cases h
    left
    simp [slept_append, slept, hp]
  · exact ⟨fun o st1 h => by cases h; exact Or.inl hp, fun st1 h => by cases h⟩
  · simp only []
    split
    · refine ⟨fun o st1 h => ?_, fun st1 h => by cases h⟩
      cases h
      right
      simp [slept_append, slept, hp]
    · refine ⟨fun o st1 h => (by cases h), fun st1 h => ?_⟩
      cases h
      simp [slept_append, slept, hp]
  · exact ⟨fun o st1 h => by cases h; exact Or.inl hp, fun st1 h => by cases h⟩
  · exact ⟨fun o st1 h => by cases h; exact Or.inl hp, fun st1 h => by cases h⟩

theorem forwardSemiAsync_Forward_slept (s : Slot) (hkey : Bytes) (comps : List Completion) :
    ∀ (loop : Nat) (st : State), ∃ j, j ≤ comps.length + 1 ∧
      slept (forwardSemiAsync.Forward s hkey comps loop st).2.trace =
        slept st.trace ++ (List.range j).map (fun t => forwardSemiAsync.delay (loop + t)) := by
  induction comps with
  | nil =>
    intro loop st
    obtain ⟨h1, h2⟩ := forwardSemiAsync_iteration_slept s hkey none loop st
    unfold forwardSemiAsync.Forward
    cases hit : forwardSemiAsync.iteration s hkey none loop st with
    | done o st1 =>
      rcases h1 o st1 hit with h | h
      · exact ⟨0, by omega, by simp [h]⟩
      · exact ⟨1, by omega, by simp [h, List.range_succ]⟩
    | again st1 => exact ⟨1, by omega, by simp [(h2 st1 hit).1, List.range_succ]⟩
  | cons m ms ih =>
    intro loop st
    obtain ⟨h1, h2⟩ := forwardSemiAsync_iteration_slept s hkey (some m) loop st
    unfold forwardSemiAsync.Forward
    cases hit : forwardSemiAsync.iteration s hkey (some m) loop st with
    | done o st1 =>
      rcases h1 o st1 hit with h | h
      · exact ⟨0, by omega, by simp [h]⟩
      · exact ⟨1, by omega, by simp [h, List.range_succ]⟩
    | again st1 =>
      obtain ⟨j, hj, hs⟩ := ih (loop + 1) st1
      refine ⟨j + 1, by simp only [List.length_cons]; omega, ?_⟩
      simp only []
      rw [hs, (h2 st1 hit).1, List.range_succ_eq_map, List.map_cons, List.map_map,
        List.append_assoc]
      congr 1
      simp only [List.singleton_append, Nat.add_zero]
      congr 1
      apply List.map_congr_left
      intro t _
      simp only [Function.comp]
      congr 1
      omega

theorem delay_values (a : Nat) :
    (a < 5 → forwardSemiAsync.delay a = 0) ∧
    (5 ≤ a → a ≤ 19 → forwardSemiAsync.delay a = a * time.Millisecond) ∧
    (20 ≤ a → forwardSemiAsync.delay a = 20 * time.Millisecond) := by
  unfold forwardSemiAsync.delay
  refine ⟨fun h => by simp [h], fun h1 h2 => ?_, fun h => ?_⟩
  · rw [if_neg (by omega), if_pos (by omega), Nat.mul_comm]
  · rw [if_neg (by omega), if_neg (by omega), Nat.mul_comm]

theorem totalSleep_succ (k : Nat) :
    totalSleep (k + 1) = totalSleep k + forwardSemiAsync.delay (k + 1) := by
  unfold totalSleep
  rw [List.range_succ, List.map_append, List.sum_append]
  simp

theorem backoffBound_succ (k : Nat) :
    backoffBound (k + 1) = backoffBound k + forwardSemiAsync.delay (k + 1) := by
  obtain ⟨h1, h2, h3⟩ := delay_values (k + 1)
  unfold backoffBound
  by_cases ha : k + 1 < 5
  · rw [h1 ha]
    have e1 : Finset.Icc 5 (min (k + 1) 19) = ∅ := Finset.Icc_eq_empty (by omega)
    have e2 : Finset.Icc 5 (min k 19) = ∅ := Finset.Icc_eq_empty (by omega)
    have e3 : k + 1 - 19 = 0 := by omega
    have e4 : k - 19 = 0 := by omega
    rw [e1, e2, e3, e4, Nat.add_zero]
  · by_cases hb : k + 1 ≤ 19
    · rw [h2 (by omega) hb]
      have e1 : min (k + 1) 19 = k + 1 := by omega
      have e2 : min k 19 = k := by omega
      have e3 : k + 1 - 19 = 0 := by omega
      have e4 : k - 19 = 0 := by omega
      rw [e1, e2, e3, e4, Finset.sum_Icc_succ_top (by omega)]
      ring
    · rw [h3 (by omega)]
      have e1 : min (k + 1) 19 = 19 := by omega
      have e2 : min k 19 = 19 := by omega
      have e3 : k + 1 - 19 = (k - 19) + 1 := by omega
      rw [e1, e2, e3]
      ring

theorem totalSleep_eq (k : Nat) : totalSleep k = backoffBound k := by
  induction k with
  | zero =>
    have e : Finset.Icc 5 (min 0 19) = ∅ := Finset.Icc_eq_empty (by omega)
    simp [totalSleep, backoffBound, forwardSemiAsync.delay, e, List.range_succ]
  | succ k ih => rw [totalSleep_succ, backoffBound_succ, ih]

/-- C12. The back-off delay of the semi-asynchronous loop depends on the attempt
number `a` only: it is `0` for `a < 5`, `a` milliseconds for `5 ≤ a ≤ 19` and
`20` milliseconds for `a ≥ 20` (a millisecond is `1000000` nanoseconds); and an
iteration with number `a` that goes on to the next attempt has slept exactly
this delay just before. -/
theorem backoff_delay (a : Nat) :
    (a < 5 → forwardSemiAsync.delay a = 0) ∧
    (5 ≤ a → a ≤ 19 → forwardSemiAsync.delay a = a * time.Millisecond) ∧
    (20 ≤ a → forwardSemiAsync.delay a = 20 * time.Millisecond) ∧
    time.Millisecond = 1000000 ∧
    (∀ (s : Slot) (hkey : Bytes) (done : Option Completion) (st st1 : State),
      forwardSemiAsync.iteration s hkey done a st = forwardSemiAsync.Iteration.again st1 →
      st1.trace.getLast? = some (Event.sleep (forwardSemiAsync.delay a))) := by
  obtain ⟨h1, h2, h3⟩ := delay_values a
  exact ⟨h1, h2, h3, rfl, fun s hkey done st st1 h =>
    ((forwardSemiAsync_iteration_slept s hkey done a st).2 st1 h).2⟩

theorem backoff_delay_witness :
    5 ≤ 7 ∧ 7 ≤ 19 ∧ forwardSemiAsync.delay 7 = 7 * time.Millisecond :=
  ⟨by decide, by decide, (backoff_delay 7).2.1 (by decide) (by decide)⟩

theorem delay_prefix_sum_le (j k : Nat) (h : j ≤ k + 1) :
    ((List.range j).map forwardSemiAsync.delay).sum ≤ totalSleep k := by
  obtain ⟨d, hd⟩ := Nat.exists_eq_add_of_le h
  unfold totalSleep
  rw [hd, List.range_add, List.map_append, List.sum_append]
  exact Nat.le_add_right _ _

/-- C13. The time slept over the attempts `0..k` is at most (in fact equal to)
`0 * 5 + 1ms * (5 + ... + min k 19) + 20ms * max 0 (k - 19)`. In every run of
the semi-asynchronous `Forward` the delays slept are those of the attempts
`0, 1, ..., j - 1` in order, for some `j`, so that a run that has slept through
attempt `k` at most has slept no longer than this bound. -/
theorem backoff_total_bound (k : Nat) (s : Slot) (hkey : Bytes) (comps : List Completion)
    (st : State) :
    totalSleep k ≤ backoffBound k ∧
    totalSleep k = backoffBound k ∧
    ∃ j, j ≤ comps.length + 1 ∧
      slept (forwardSemiAsync.Forward s hkey comps 0 st).2.trace =
        slept st.trace ++ (List.range j).map forwardSemiAsync.delay ∧
      (j ≤ k + 1 → ((List.range j).map forwardSemiAsync.delay).sum ≤ backoffBound k) := by
  refine ⟨le_of_eq (totalSleep_eq k), totalSleep_eq k, ?_⟩
  obtain ⟨j, hj, hs⟩ := forwardSemiAsync_Forward_slept s hkey comps 0 st
  refine ⟨j, hj, ?_, fun h => ?_⟩
  · rw [hs]
    simp
  · rw [← totalSleep_eq k]
    exact delay_prefix_sum_le j k h

/-! ### Retries of the semi-asynchronous loop -/

theorem slotsmgrtExecWrapper_ret (s : Slot) (hkey : Bytes) (database : Int) (seed : Nat)
    (multi : List redis.Resp) (done : Option Completion) (st st0 : State)
    (x : Option redis.Resp × Bool × Option Error)
    (h : forwardHelper.slotsmgrtExecWrapper s hkey database seed multi done st =
      (Outcome.ret x, st0)) :
    ∃ c, st0 = { st with trace := st.trace ++ [Event.migrate c
      ([redis.NewBulkBytes SLOTSMGRT_EXEC_WRAPPER, redis.NewBulkBytes hkey] ++ multi)] } := by
  unfold forwardHelper.slotsmgrtExecWrapper at h
  split at h
  · split at h
    · cases h
    · split at h
      · cases h
      · rename_i bc _ _ _
        simp only [Prod.mk.injEq] at h
        exact ⟨bc, h.2.symm⟩
  · cases h

theorem forwardSemiAsync_process_retry (s : Slot) (hkey : Bytes) (done : Option Completion)
    (st st1 : State) (bc : Option BackendConn)
    (h : forwardSemiAsync.process s hkey done st = (Outcome.ret (bc, true, none), st1)) :
    ∃ c, st1 = { st with trace := st.trace ++ [Event.migrate c
      ([redis.NewBulkBytes SLOTSMGRT_EXEC_WRAPPER, redis.NewBulkBytes hkey] ++
        st.r.Multi)] } := by
  unfold forwardSemiAsync.process at h
  split at h
  · cases h
  · simp only [] at h
    split at h
    · split at h
      · cases h
      · cases h
      · rename_i heq
        simp only [Prod.mk.injEq] at h
        obtain ⟨c, hc⟩ := slotsmgrtExecWrapper_ret s hkey st.r.Database st.r.Seed16 st.r.Multi
          done st _ _ heq
        exact ⟨c, by rw [← h.2, hc]⟩
      · split at h <;> cases h
      · cases h
      · cases h
    · split at h <;> cases h

theorem forwardSemiAsync_iteration_retry (s : Slot) (hkey : Bytes) (done : Option Completion)
    (loop : Nat) (st st1 : State) (bc : Option BackendConn)
    (h : forwardSemiAsync.process s hkey done st = (Outcome.ret (bc, true, none), st1)) :
    forwardSemiAsync.iteration s hkey done loop st =
      if st1.r.IsBroken loop then
        forwardSemiAsync.Iteration.done (Outcome.ret (some Error.ErrRequestIsBroken))
          { st1 with trace := st1.trace ++ [Event.sleep (forwardSemiAsync.delay loop)] }
      else
        forwardSemiAsync.Iteration.again
          { st1 with trace := st1.trace ++ [Event.sleep (forwardSemiAsync.delay loop)] } := by
  unfold forwardSemiAsync.iteration
  rw [h]
  cases bc <;> rfl

/-- C14. Broken short-circuits retry. When an attempt of the semi-asynchronous
loop ends in "retry", exactly one wrapper sub-request was issued in it and
nothing else changed. If the broken flag reads true at the check after the
back-off sleep, `Forward` returns `ErrRequestIsBroken` right there: the state
is that of the attempt plus the sleep, so there is no further wrapper call, the
request is pushed to no connection and `refs` is untouched. A request whose
`Broken` cell is nil never reads as broken, and when the flag reads false the
loop goes on with the next attempt. -/
theorem broken_short_circuits (s : Slot) (hkey : Bytes) (m : Completion)
    (ms : List Completion) (loop : Nat) (st st1 : State) (bc : Option BackendConn)
    (hretry : forwardSemiAsync.process s hkey (some m) st =
      (Outcome.ret (bc, true, none), st1)) :
    (∃ c, st1 = { st with trace := st.trace ++ [Event.migrate c
      ([redis.NewBulkBytes SLOTSMGRT_EXEC_WRAPPER, redis.NewBulkBytes hkey] ++
        st.r.Multi)] }) ∧
    (st.r.IsBroken loop = true →
      forwardSemiAsync.Forward s hkey (m :: ms) loop st =
        (Outcome.ret (some Error.ErrRequestIsBroken),
          { st1 with trace := st1.trace ++ [Event.sleep (forwardSemiAsync.delay loop)] })) ∧
    (st.r.Broken = none → ∀ t, st.r.IsBroken t = false) ∧
    (st.r.IsBroken loop = false →
      forwardSemiAsync.Forward s hkey (m :: ms) loop st =
        forwardSemiAsync.Forward s hkey ms (loop + 1)
          { st1 with trace := st1.trace ++ [Event.sleep (forwardSemiAsync.delay loop)] }) := by
  obtain ⟨c, hc⟩ := forwardSemiAsync_process_retry s hkey (some m) st st1 bc hretry
  have hr : st1.r = st.r := by rw [hc]
  have hit := forwardSemiAsync_iteration_retry s hkey (some m) loop st st1 bc hretry
  refine ⟨⟨c, hc⟩, ?_, ?_, ?_⟩
  · intro hb
    have hb1 : st1.r.IsBroken loop = true := by rw [hr]; exact hb
    rw [hb1] at hit
    simp only [forwardSemiAsync.Forward, hit, ↓reduceIte]
  · intro hn t
    simp [Request.IsBroken, hn]
  · intro hb
    have hb1 : st1.r.IsBroken loop = false := by rw [hr]; exact hb
    rw [hb1] at hit
    simp only [forwardSemiAsync.Forward, hit, Bool.false_eq_true, ↓reduceIte]

theorem broken_short_circuits_witness :
    forwardSemiAsync.process sampleSlot sampleKey (some sampleRetry) sampleStateBroken =
      (Outcome.ret (none, true, none),
        { sampleStateBroken with trace := [Event.migrate { id := 2 }
          [redis.NewBulkBytes SLOTSMGRT_EXEC_WRAPPER, redis.NewBulkBytes sampleKey]] }) ∧
    sampleStateBroken.r.IsBroken 0 = true ∧
    forwardSemiAsync.Forward sampleSlot sampleKey [sampleRetry, sampleMoved] 0
        sampleStateBroken =
      (Outcome.ret (some Error.ErrRequestIsBroken),
        { sampleStateBroken with trace := [Event.migrate { id := 2 }
            [redis.NewBulkBytes SLOTSMGRT_EXEC_WRAPPER, redis.NewBulkBytes sampleKey]] ++
          [Event.sleep (forwardSemiAsync.delay 0)] }) :=
  ⟨rfl, rfl,
    (broken_short_circuits sampleSlot sampleKey sampleRetry [sampleMoved] 0 sampleStateBroken
      _ none rfl).2.1 rfl⟩

theorem forwardSemiAsync_process_tag1 (s : Slot) (hkey : Bytes) (st : State)
    (backend migrate : sharedBackendConn) (c : BackendConn)
    (v : Bytes) (a : List redis.Resp) (p : redis.Resp)
    (hb : s.backend = some backend) (hm : s.migrate = some migrate)
    (hc : migrate.BackendConn st.r.Database st.r.Seed16 true = some c)
    (hk : hkey ≠ []) :
    forwardSemiAsync.process s hkey
      (some { Err := none, Resp := some (redis.Resp.mk redis.RespType.array v
        [redis.Resp.mk redis.RespType.int [49] a, p]) }) st =
      (Outcome.ret (none, true, none),
        { st with trace := st.trace ++ [Event.migrate c
          ([redis.NewBulkBytes SLOTSMGRT_EXEC_WRAPPER, redis.NewBulkBytes hkey] ++
            st.r.Multi)] }) := by
  have hlen : hkey.length ≠ 0 := fun h => hk (List.length_eq_zero.mp h)
  simp only [forwardSemiAsync.process]
  rw [slotsmgrtExecWrapper_completed s hkey st.r.Database st.r.Seed16 st.r.Multi _ st migrate
    c hm hc, wrapperResult_tag]
  simp [hb, hm, hlen]

theorem forwardSemiAsync_process_tag0 (s : Slot) (hkey : Bytes) (st : State)
    (backend migrate : sharedBackendConn) (c bcA : BackendConn)
    (v : Bytes) (a : List redis.Resp) (p : redis.Resp)
    (hb : s.backend = some backend) (hm : s.migrate = some migrate)
    (hc : migrate.BackendConn st.r.Database st.r.Seed16 true = some c)
    (hA : backend.BackendConn st.r.Database st.r.Seed16 true = some bcA)
    (hk : hkey ≠ []) :
    forwardSemiAsync.process s hkey
      (some { Err := none, Resp := some (redis.Resp.mk redis.RespType.array v
        [redis.Resp.mk redis.RespType.int [48] a, p]) }) st =
      (Outcome.ret (some bcA, false, none),
        { r := { st.r with Group := some s.id }
          refs := st.refs + 1
          trace := st.trace ++ [Event.migrate c
            ([redis.NewBulkBytes SLOTSMGRT_EXEC_WRAPPER, redis.NewBulkBytes hkey] ++
              st.r.Multi)] }) := by
  have hlen : hkey.length ≠ 0 := fun h => hk (List.length_eq_zero.mp h)
  have hseed : ({ st.r with Group := some s.id } : Request).Seed16 = st.r.Seed16 := rfl
  simp only [forwardSemiAsync.process]
  rw [slotsmgrtExecWrapper_completed s hkey st.r.Database st.r.Seed16 st.r.Multi _ st migrate
    c hm hc, wrapperResult_tag]
  simp [hb, hm, hlen, forwardHelper.forward2, forwardHelper.master, hseed, hA]

theorem migrates_append (a b : List Event) :
    migrates (a ++ b) = migrates a ++ migrates b := by
  induction a with
  | nil => simp [migrates]
  | cons e es ih => cases e <;> simp [migrates, ih]

theorem retryEvents_effects (bc : BackendConn) (multi : List redis.Resp) (k : Nat) :
    ∀ loop : Nat,
      (migrates (retryEvents bc multi loop k)).length = k ∧
      slept (retryEvents bc multi loop k) =
        (List.range k).map (fun t => forwardSemiAsync.delay (loop + t)) ∧
      forwards (retryEvents bc multi loop k) = [] := by
  induction k with
  | zero => intro loop; simp [retryEvents, migrates, slept, forwards]
  | succ k ih =>
    intro loop
    obtain ⟨h1, h2, h3⟩ := ih (loop + 1)
    refine ⟨by simp [retryEvents, migrates, h1], ?_, by simp [retryEvents, forwards, h3]⟩
    simp only [retryEvents, slept, h2]
    rw [List.range_succ_eq_map, List.map_cons, List.map_map]
    simp only [Nat.add_zero]
    congr 1
    apply List.map_congr_left
    intro t _
    simp only [Function.comp]
    congr 1
    omega

theorem forwardSemiAsync_retry_run (s : Slot) (hkey : Bytes)
    (backend migrate : sharedBackendConn) (c bcA : BackendConn)
    (v : Bytes) (a : List redis.Resp) (p : redis.Resp)
    (hb : s.backend = some backend) (hm : s.migrate = some migrate) (hk : hkey ≠ [])
    (ones : List Completion) :
    ∀ (loop : Nat) (st : State),
      migrate.BackendConn st.r.Database st.r.Seed16 true = some c →
      backend.BackendConn st.r.Database st.r.Seed16 true = some bcA →
      (∀ m ∈ ones, ∃ v1 a1 p1, m = Completion.mk none (some
        (redis.Resp.mk redis.RespType.array v1
          [redis.Resp.mk redis.RespType.int [49] a1, p1]))) →
      (∀ t, st.r.IsBroken t = false) →
      forwardSemiAsync.Forward s hkey
        (ones ++ [{ Err := none, Resp := some (redis.Resp.mk redis.RespType.array v
          [redis.Resp.mk redis.RespType.int [48] a, p]) }]) loop st =
        (Outcome.ret none,
          { r := { st.r with Group := some s.id }
            refs := st.refs + 1
            trace := st.trace ++
              retryEvents c ([redis.NewBulkBytes SLOTSMGRT_EXEC_WRAPPER,
                redis.NewBulkBytes hkey] ++ st.r.Multi) loop ones.length ++
              [Event.migrate c ([redis.NewBulkBytes SLOTSMGRT_EXEC_WRAPPER,
                redis.NewBulkBytes hkey] ++ st.r.Multi),
                Event.forward bcA { st.r with Group := some s.id }] }) := by
  induction ones with
  | nil =>
    intro loop st hc hA _ _
    have hp := forwardSemiAsync_process_tag0 s hkey st backend migrate c bcA v a p hb hm hc hA hk
    simp only [List.nil_append, forwardSemiAsync.Forward, forwardSemiAsync.iteration, hp,
      List.length_nil, retryEvents, List.append_nil]
    simp
  | cons m ms ih =>
    intro loop st hc hA hones hnb
    obtain ⟨v1, a1, p1, hm1⟩ := hones m (List.mem_cons_self _ _)
    subst hm1
    have hp := forwardSemiAsync_process_tag1 s hkey st backend migrate c v1 a1 p1 hb hm hc hk
    have hit := forwardSemiAsync_iteration_retry s hkey _ loop st _ none hp
    have hnb1 := hnb loop
    simp only [] at hit
    rw [hnb1] at hit
    simp only [Bool.false_eq_true, ↓reduceIte] at hit
    simp only [List.cons_append, forwardSemiAsync.Forward, hit]
    refine (ih (loop + 1)
      { st with trace := st.trace ++ [Event.migrate c
          ([redis.NewBulkBytes SLOTSMGRT_EXEC_WRAPPER, redis.NewBulkBytes hkey] ++
            st.r.Multi)] ++ [Event.sleep (forwardSemiAsync.delay loop)] }
      hc hA (fun x hx => hones x (List.mem_cons_of_mem _ hx)) hnb).trans ?_
    simp [retryEvents]

/-- C15. The retry loop of the semi-asynchronous strategy. For a slot with
primary `A` and a migration source, a non-empty hash key and a request that is
never broken: when the wrapper replies are `k` replies with tag 1 followed by
one reply with tag 0, `Forward` returns nil. Its events are, `k` times, a wrapper
sub-request followed by the sleep of that attempt, then one more wrapper
sub-request and the push of the request to the master connection of `A`. So
there are exactly `k + 1` wrapper calls, the delays slept are those of the
attempts `0..k-1`, the request is pushed exactly once, and `refs` is incremented
once. -/
theorem forwardSemiAsync_retries_then_moved (s : Slot) (hkey : Bytes)
    (backend migrate : sharedBackendConn) (c bcA : BackendConn)
    (v : Bytes) (a : List redis.Resp) (p : redis.Resp) (ones : List Completion) (st : State)
    (hb : s.backend = some backend) (hm : s.migrate = some migrate) (hk : hkey ≠ [])
    (hc : migrate.BackendConn st.r.Database st.r.Seed16 true = some c)
    (hA : backend.BackendConn st.r.Database st.r.Seed16 true = some bcA)
    (hones : ∀ m ∈ ones, ∃ v1 a1 p1, m = Completion.mk none (some
      (redis.Resp.mk redis.RespType.array v1
        [redis.Resp.mk redis.RespType.int [49] a1, p1])))
    (hnb : ∀ t, st.r.IsBroken t = false) :
    ∃ final : State,
      forwardSemiAsync.Forward s hkey
        (ones ++ [Completion.mk none (some (redis.Resp.mk redis.RespType.array v
          [redis.Resp.mk redis.RespType.int [48] a, p]))]) 0 st =
        (Outcome.ret none, final) ∧
      final.r = { st.r with Group := some s.id } ∧
      final.refs = st.refs + 1 ∧
      final.trace = st.trace ++
        retryEvents c ([redis.NewBulkBytes SLOTSMGRT_EXEC_WRAPPER,
          redis.NewBulkBytes hkey] ++ st.r.Multi) 0 ones.length ++
        [Event.migrate c ([redis.NewBulkBytes SLOTSMGRT_EXEC_WRAPPER,
          redis.NewBulkBytes hkey] ++ st.r.Multi),
          Event.forward bcA { st.r with Group := some s.id }] ∧
      (migrates final.trace).length = (migrates st.trace).length + (ones.length + 1) ∧
      slept final.trace = slept st.trace ++ (List.range ones.length).map forwardSemiAsync.delay ∧
      forwards final.trace = forwards st.trace ++ [(bcA, final.r)] := by
  obtain ⟨h1, h2, h3⟩ := retryEvents_effects c
    ([redis.NewBulkBytes SLOTSMGRT_EXEC_WRAPPER, redis.NewBulkBytes hkey] ++ st.r.Multi)
    ones.length 0
  refine ⟨_, forwardSemiAsync_retry_run s hkey backend migrate c bcA v a p hb hm hk ones 0 st
    hc hA hones hnb, rfl, rfl, rfl, ?_, ?_, ?_⟩
  · simp only [migrates_append, List.length_append, h1, migrates, List.length_cons,
      List.length_nil]
    omega
  · simp only [slept_append, h2, slept, List.append_nil]
    simp
  · simp only [forwards_append, h3, forwards, List.append_nil]

theorem forwardSemiAsync_retries_then_moved_witness :
    sampleSlot.backend = some (samplePool 1) ∧ sampleSlot.migrate = some (samplePool 2) ∧
    sampleKey ≠ [] ∧
    ∃ final : State,
      forwardSemiAsync.Forward sampleSlot sampleKey
        ([sampleRetry] ++ [Completion.mk none (some (redis.Resp.mk redis.RespType.array []
          [redis.Resp.mk redis.RespType.int [48] [], sampleOK]))]) 0 sampleState =
        (Outcome.ret none, final) ∧
      final.r = { sampleState.r with Group := some sampleSlot.id } ∧
      final.refs = sampleState.refs + 1 ∧
      final.trace = sampleState.trace ++
        retryEvents { id := 2 } ([redis.NewBulkBytes SLOTSMGRT_EXEC_WRAPPER,
          redis.NewBulkBytes sampleKey] ++ sampleState.r.Multi) 0 [sampleRetry].length ++
        [Event.migrate { id := 2 } ([redis.NewBulkBytes SLOTSMGRT_EXEC_WRAPPER,
          redis.NewBulkBytes sampleKey] ++ sampleState.r.Multi),
          Event.forward { id := 1 } { sampleState.r with Group := some sampleSlot.id }] ∧
      (migrates final.trace).length =
        (migrates sampleState.trace).length + ([sampleRetry].length + 1) ∧
      slept final.trace =
        slept sampleState.trace ++ (List.range [sampleRetry].length).map forwardSemiAsync.delay ∧
      forwards final.trace = forwards sampleState.trace ++ [({ id := 1 }, final.r)] :=
  ⟨rfl, rfl, by decide,
    forwardSemiAsync_retries_then_moved sampleSlot sampleKey (samplePool 1) (samplePool 2)
      { id := 2 } { id := 1 } [] [] sampleOK [sampleRetry] sampleState rfl rfl (by decide)
      rfl rfl
      (fun m hm => by
        simp only [List.mem_singleton] at hm
        exact ⟨[], [], sampleOK, hm⟩)
      (fun _ => rfl)⟩

/-! ### Which calls route the request -/

theorem forwardSemiAsync_skip_retries (s : Slot) (hkey : Bytes)
    (backend migrate : sharedBackendConn) (c : BackendConn)
    (hb : s.backend = some backend) (hm : s.migrate = some migrate) (hk : hkey ≠ [])
    (ones : List Completion) :
    ∀ (loop : Nat) (st : State) (tail : List Completion),
      migrate.BackendConn st.r.Database st.r.Seed16 true = some c →
      (∀ m ∈ ones, ∃ v1 a1 p1, m = Completion.mk none (some
        (redis.Resp.mk redis.RespType.array v1
          [redis.Resp.mk redis.RespType.int [49] a1, p1]))) →
      (∀ t, loop ≤ t → t < loop + ones.length → st.r.IsBroken t = false) →
      forwardSemiAsync.Forward s hkey (ones ++ tail) loop st =
        forwardSemiAsync.Forward s hkey tail (loop + ones.length)
          { st with trace := st.trace ++
              retryEvents c ([redis.NewBulkBytes SLOTSMGRT_EXEC_WRAPPER,
                redis.NewBulkBytes hkey] ++ st.r.Multi) loop ones.length } := by
  induction ones with
  | nil =>
    intro loop st tail _ _ _
    simp [retryEvents]
  | cons m ms ih =>
    intro loop st tail hc hones hnb
    obtain ⟨v1, a1, p1, hm1⟩ := hones m (List.mem_cons_self _ _)
    subst hm1
    have hp := forwardSemiAsync_process_tag1 s hkey st backend migrate c v1 a1 p1 hb hm hc hk
    have hit := forwardSemiAsync_iteration_retry s hkey _ loop st _ none hp
    have hnb1 := hnb loop (Nat.le_refl _) (by simp)
    simp only [] at hit
    rw [hnb1] at hit
    simp only [Bool.false_eq_true, ↓reduceIte] at hit
    simp only [List.cons_append, forwardSemiAsync.Forward, hit]
    refine (ih (loop + 1)
      { st with trace := st.trace ++ [Event.migrate c
          ([redis.NewBulkBytes SLOTSMGRT_EXEC_WRAPPER, redis.NewBulkBytes hkey] ++
            st.r.Multi)] ++ [Event.sleep (forwardSemiAsync.delay loop)] }
      tail hc (fun x hx => hones x (List.mem_cons_of_mem _ hx))
      (fun t h1 h2 => hnb t (by omega) (by simp only [List.length_cons]; omega))).trans ?_
    have hl : loop + 1 + ms.length = loop + (ms.length + 1) := by omega
    simp [retryEvents, hl]

theorem forwardSemiAsync_Forward_moved (s : Slot) (hkey : Bytes) (st : State)
    (backend migrate : sharedBackendConn) (c bcA : BackendConn)
    (v : Bytes) (a : List redis.Resp) (p : redis.Resp) (rest : List Completion) (loop : Nat)
    (hb : s.backend = some backend) (hm : s.migrate = some migrate)
    (hc : migrate.BackendConn st.r.Database st.r.Seed16 true = some c)
    (hA : backend.BackendConn st.r.Database st.r.Seed16 true = some bcA)
    (hk : hkey ≠ []) :
    forwardSemiAsync.Forward s hkey
      (Completion.mk none (some (redis.Resp.mk redis.RespType.array v
        [redis.Resp.mk redis.RespType.int [48] a, p])) :: rest) loop st =
      (Outcome.ret none,
        { r := { st.r with Group := some s.id }
          refs := st.refs + 1
          trace := st.trace ++ [Event.migrate c
            ([redis.NewBulkBytes SLOTSMGRT_EXEC_WRAPPER, redis.NewBulkBytes hkey] ++
              st.r.Multi),
            Event.forward bcA { st.r with Group := some s.id }] }) := by
  have hp := forwardSemiAsync_process_tag0 s hkey st backend migrate c bcA v a p hb hm hc hA hk
  simp only [forwardSemiAsync.Forward, forwardSemiAsync.iteration, hp]
  simp

theorem forwardSemiAsync_Forward_answered (s : Slot) (hkey : Bytes) (st : State)
    (backend migrate : sharedBackendConn) (c : BackendConn)
    (v : Bytes) (a : List redis.Resp) (p : redis.Resp) (rest : List Completion) (loop : Nat)
    (hb : s.backend = some backend) (hm : s.migrate = some migrate)
    (hc : migrate.BackendConn st.r.Database st.r.Seed16 true = some c)
    (hk : hkey ≠ []) :
    forwardSemiAsync.Forward s hkey
      (Completion.mk none (some (redis.Resp.mk redis.RespType.array v
        [redis.Resp.mk redis.RespType.int [50] a, p])) :: rest) loop st =
      (Outcome.ret none,
        { st with
          r := { st.r with Resp := some p }
          trace := st.trace ++ [Event.migrate c
            ([redis.NewBulkBytes SLOTSMGRT_EXEC_WRAPPER, redis.NewBulkBytes hkey] ++
              st.r.Multi)] }) := by
  have hlen : hkey.length ≠ 0 := fun h => hk (List.length_eq_zero.mp h)
  simp only [forwardSemiAsync.Forward, forwardSemiAsync.iteration, forwardSemiAsync.process]
  rw [slotsmgrtExecWrapper_completed s hkey st.r.Database st.r.Seed16 st.r.Multi _ st migrate
    c hm hc, wrapperResult_tag]
  simp [hb, hm, hlen]

theorem forwardSemiAsync_Forward_direct (s : Slot) (hkey : Bytes) (st : State)
    (backend : sharedBackendConn) (bc : BackendConn) (comps : List Completion) (loop : Nat)
    (hb : s.backend = some backend) (hd : s.migrate = none ∨ hkey = [])
    (hbc : forwardHelper.forward2 s { st.r with Group := some s.id } =
      Outcome.ret (some bc)) :
    forwardSemiAsync.Forward s hkey comps loop st =
      (Outcome.ret none,
        { r := { st.r with Group := some s.id }
          refs := st.refs + 1
          trace := st.trace ++ [Event.forward bc { st.r with Group := some s.id }] }) := by
  have hbn : s.backend.isNone = false := by rw [hb]; rfl
  have hcond : (s.migrate.isSome && decide (hkey.length ≠ 0)) = false := by
    rcases hd with h | h
    · simp [h]
    · simp [h]
  have hit : ∀ done, forwardSemiAsync.iteration s hkey done loop st =
      forwardSemiAsync.Iteration.done (Outcome.ret none)
        { r := { st.r with Group := some s.id }
          refs := st.refs + 1
          trace := st.trace ++ [Event.forward bc { st.r with Group := some s.id }] } := by
    intro done
    unfold forwardSemiAsync.iteration forwardSemiAsync.process
    simp only [hbn, hcond, Bool.false_eq_true, ↓reduceIte, hbc]
  cases comps with
  | nil => simp only [forwardSemiAsync.Forward, hit]
  | cons m ms => simp only [forwardSemiAsync.Forward, hit]

/-- C9. In both strategies, when the master lookup of the primary pool always
yields a connection, one whole `Forward` call (with all retries of the
semi-asynchronous loop) either returns nil having routed the request once
(`refs` incremented once, `Group` set to the `refs` of the slot, the request
pushed once, to one connection), or has not routed it at all (`refs` and `Group`
as before, the request pushed to no connection). The second holds for every
outcome other than nil: `ErrSlotIsNotReady`, a failed migrate step,
`ErrRequestIsBroken`, a panic or a parked wait. In the synchronous strategy nil
always comes with the first. In the semi-asynchronous strategy a call that
selects a backend returns nil having routed the request once: this is so when
the slot has no migration source or the hash key is empty, and when, after any
number of tag-1 replies with the request not broken, the wrapper reply has tag
0; a call that ends on a wrapper reply with tag 2, after any number of such
retries, returns nil with the payload as `Resp` and has not routed the request. -/
theorem Forward_routes_once (s : Slot) (hkey : Bytes) (done : Option Completion)
    (comps : List Completion) (loop : Nat) (st : State)
    (hm : ∀ p, s.backend = some p → ∀ database seed, p.BackendConn database seed true ≠ none) :
    (((forwardSync.Forward s hkey done st).1 = Outcome.ret none ∧
        RoutedOnce s st (forwardSync.Forward s hkey done st).2) ∨
      ((forwardSync.Forward s hkey done st).1 ≠ Outcome.ret none ∧
        Unrouted st (forwardSync.Forward s hkey done st).2)) ∧
    (((forwardSemiAsync.Forward s hkey comps loop st).1 = Outcome.ret none ∧
        RoutedOnce s st (forwardSemiAsync.Forward s hkey comps loop st).2) ∨
      Unrouted st (forwardSemiAsync.Forward s hkey comps loop st).2) ∧
    ((forwardSemiAsync.Forward s hkey comps loop st).1 ≠ Outcome.ret none →
      Unrouted st (forwardSemiAsync.Forward s hkey comps loop st).2) ∧
    (∀ backend, s.backend = some backend → (s.migrate = none ∨ hkey = []) →
      (forwardSemiAsync.Forward s hkey comps loop st).1 = Outcome.ret none ∧
      RoutedOnce s st (forwardSemiAsync.Forward s hkey comps loop st).2) ∧
    (∀ (backend migrate : sharedBackendConn) (c : BackendConn) (ones rest : List Completion)
        (v : Bytes) (a : List redis.Resp) (p : redis.Resp),
      s.backend = some backend → s.migrate = some migrate → hkey ≠ [] →
      migrate.BackendConn st.r.Database st.r.Seed16 true = some c →
      (∀ m ∈ ones, ∃ v1 a1 p1, m = Completion.mk none (some
        (redis.Resp.mk redis.RespType.array v1
          [redis.Resp.mk redis.RespType.int [49] a1, p1]))) →
      (∀ t, loop ≤ t → t < loop + ones.length → st.r.IsBroken t = false) →
      ((forwardSemiAsync.Forward s hkey
          (ones ++ Completion.mk none (some (redis.Resp.mk redis.RespType.array v
            [redis.Resp.mk redis.RespType.int [48] a, p])) :: rest) loop st).1 =
          Outcome.ret none ∧
        RoutedOnce s st (forwardSemiAsync.Forward s hkey
          (ones ++ Completion.mk none (some (redis.Resp.mk redis.RespType.array v
            [redis.Resp.mk redis.RespType.int [48] a, p])) :: rest) loop st).2) ∧
      ((forwardSemiAsync.Forward s hkey
          (ones ++ Completion.mk none (some (redis.Resp.mk redis.RespType.array v
            [redis.Resp.mk redis.RespType.int [50] a, p])) :: rest) loop st).1 =
          Outcome.ret none ∧
        Unrouted st (forwardSemiAsync.Forward s hkey
          (ones ++ Completion.mk none (some (redis.Resp.mk redis.RespType.array v
            [redis.Resp.mk redis.RespType.int [50] a, p])) :: rest) loop st).2 ∧
        (forwardSemiAsync.Forward s hkey
          (ones ++ Completion.mk none (some (redis.Resp.mk redis.RespType.array v
            [redis.Resp.mk redis.RespType.int [50] a, p])) :: rest) loop st).2.r.Resp =
          some p)) := by
  have h2 := forwardSemiAsync_routes s hkey hm comps loop st
  refine ⟨forwardSync_routes s hkey done st hm _ rfl, h2, ?_, ?_, ?_⟩
  · intro hne
    rcases h2 with ⟨h, _⟩ | h
    · exact absurd h hne
    · exact h
  · intro backend hb hd
    obtain ⟨bc, hbc⟩ := forward2_some s { st.r with Group := some s.id } backend hb
      (hm backend hb)
    rw [forwardSemiAsync_Forward_direct s hkey st backend bc comps loop hb hd hbc]
    exact ⟨rfl, rfl, rfl, bc, by simp [forwards_append, forwards]⟩
  · intro backend migrate c ones rest v a p hb hmg hk hc hones hnb
    obtain ⟨bcA, hA⟩ := Option.ne_none_iff_exists'.mp
      (hm backend hb st.r.Database st.r.Seed16)
    have hf := (retryEvents_effects c ([redis.NewBulkBytes SLOTSMGRT_EXEC_WRAPPER,
      redis.NewBulkBytes hkey] ++ st.r.Multi) ones.length loop).2.2
    have hmoved := forwardSemiAsync_Forward_moved s hkey
      { st with trace := st.trace ++ retryEvents c ([redis.NewBulkBytes SLOTSMGRT_EXEC_WRAPPER,
          redis.NewBulkBytes hkey] ++ st.r.Multi) loop ones.length }
      backend migrate c bcA v a p rest (loop + ones.length) hb hmg hc hA hk
    have hanswered := forwardSemiAsync_Forward_answered s hkey
      { st with trace := st.trace ++ retryEvents c ([redis.NewBulkBytes SLOTSMGRT_EXEC_WRAPPER,
          redis.NewBulkBytes hkey] ++ st.r.Multi) loop ones.length }
      backend migrate c v a p rest (loop + ones.length) hb hmg hc hk
    constructor
    · rw [forwardSemiAsync_skip_retries s hkey backend migrate c hb hmg hk ones loop st _
        hc hones hnb, hmoved]
      exact ⟨rfl, rfl, rfl, bcA,
        by simp only [forwards_append, forwards, hf, List.append_nil]⟩
    · rw [forwardSemiAsync_skip_retries s hkey backend migrate c hb hmg hk ones loop st _
        hc hones hnb, hanswered]
      exact ⟨rfl, ⟨rfl, rfl,
        by simp only [forwards_append, forwards, hf, List.append_nil]⟩, rfl⟩

theorem Forward_routes_once_witness :
    (∀ p, sampleSlot.backend = some p →
      ∀ database seed, p.BackendConn database seed true ≠ none) ∧
    sampleSlot.backend = some (samplePool 1) ∧ sampleSlot.migrate = some (samplePool 2) ∧
    sampleKey ≠ [] ∧
    ((forwardSync.Forward sampleSlot sampleKey
        (some { Err := none, Resp := some (redis.Resp.mk redis.RespType.int [49] []) })
        sampleState).1 = Outcome.ret none ∧
      RoutedOnce sampleSlot sampleState (forwardSync.Forward sampleSlot sampleKey
        (some { Err := none, Resp := some (redis.Resp.mk redis.RespType.int [49] []) })
        sampleState).2) ∧
    ((forwardSemiAsync.Forward sampleSlot sampleKey
        ([sampleRetry] ++ Completion.mk none (some (redis.Resp.mk redis.RespType.array []
          [redis.Resp.mk redis.RespType.int [48] [], sampleOK])) :: []) 0 sampleState).1 =
        Outcome.ret none ∧
      RoutedOnce sampleSlot sampleState (forwardSemiAsync.Forward sampleSlot sampleKey
        ([sampleRetry] ++ Completion.mk none (some (redis.Resp.mk redis.RespType.array []
          [redis.Resp.mk redis.RespType.int [48] [], sampleOK])) :: []) 0 sampleState).2) ∧
    ((forwardSemiAsync.Forward sampleSlot sampleKey
        ([sampleRetry] ++ Completion.mk none (some (redis.Resp.mk redis.RespType.array []
          [redis.Resp.mk redis.RespType.int [50] [], sampleOK])) :: []) 0 sampleState).1 =
        Outcome.ret none ∧
      Unrouted sampleState (forwardSemiAsync.Forward sampleSlot sampleKey
        ([sampleRetry] ++ Completion.mk none (some (redis.Resp.mk redis.RespType.array []
          [redis.Resp.mk redis.RespType.int [50] [], sampleOK])) :: []) 0 sampleState).2 ∧
      (forwardSemiAsync.Forward sampleSlot sampleKey
        ([sampleRetry] ++ Completion.mk none (some (redis.Resp.mk redis.RespType.array []
          [redis.Resp.mk redis.RespType.int [50] [], sampleOK])) :: []) 0 sampleState).2.r.Resp =
        some sampleOK) :=
  ⟨fun p hp database seed => by
      simp only [sampleSlot, Option.some.injEq] at hp
      subst hp
      simp [samplePool],
    rfl, rfl, by decide,
    (Forward_routes_once sampleSlot sampleKey
      (some { Err := none, Resp := some (redis.Resp.mk redis.RespType.int [49] []) })
      [] 0 sampleState
      (fun p hp database seed => by
        simp only [sampleSlot, Option.some.injEq] at hp
        subst hp
        simp [samplePool])).1.resolve_right (fun h => h.1 rfl),
    ((Forward_routes_once sampleSlot sampleKey none [] 0 sampleState
      (fun p hp database seed => by
        simp only [sampleSlot, Option.some.injEq] at hp
        subst hp
        simp [samplePool])).2.2.2.2 (samplePool 1) (samplePool 2) { id := 2 } [sampleRetry] []
        [] [] sampleOK rfl rfl (by decide) rfl
        (fun m hm => by
          simp only [List.mem_singleton] at hm
          exact ⟨[], [], sampleOK, hm⟩)
        (fun _ _ _ => rfl)).1,
    ((Forward_routes_once sampleSlot sampleKey none [] 0 sampleState
      (fun p hp database seed => by
        simp only [sampleSlot, Option.some.injEq] at hp
        subst hp
        simp [samplePool])).2.2.2.2 (samplePool 1) (samplePool 2) { id := 2 } [sampleRetry] []
        [] [] sampleOK rfl rfl (by decide) rfl
        (fun m hm => by
          simp only [List.mem_singleton] at hm
          exact ⟨[], [], sampleOK, hm⟩)
        (fun _ _ _ => rfl)).2⟩

/-! ### The migrate command of the synchronous strategy -/

theorem slotsmgrt_issued (s : Slot) (hkey : Bytes) (database : Int) (seed : Nat)
    (done : Option Completion) (st : State) (backend migrate : sharedBackendConn)
    (bc : BackendConn)
    (hb : s.backend = some backend) (hm : s.migrate = some migrate)
    (hc : migrate.BackendConn database seed true = some bc) :
    ∃ o, forwardHelper.slotsmgrt s hkey database seed done st =
      (o, { st with trace := st.trace ++ [Event.migrate bc
        [redis.NewBulkBytes SLOTSMGRTTAGONE, redis.NewBulkBytes backend.host,
          redis.NewBulkBytes backend.port, redis.NewBulkBytes timeout3000,
          redis.NewBulkBytes hkey]] }) := by
  cases done with
  | none => exact ⟨Outcome.wait, by simp [forwardHelper.slotsmgrt, hb, hm, hc]⟩
  | some m => exact ⟨_, slotsmgrt_completed s hkey database seed m st backend migrate bc hb hm hc⟩

theorem forwardSync_Forward_migrates (s : Slot) (hkey : Bytes) (done : Option Completion)
    (st : State) :
    ∀ o st0,
      (if s.migrate.isSome && decide (hkey.length ≠ 0) then
        forwardHelper.slotsmgrt s hkey st.r.Database st.r.Seed16 done st
      else (Outcome.ret none, st)) = (o, st0) →
      s.backend.isNone = false →
      migrates (forwardSync.Forward s hkey done st).2.trace = migrates st0.trace := by
  intro o st0 h hb
  unfold forwardSync.Forward forwardSync.process
  simp only [hb, Bool.false_eq_true, ↓reduceIte, h]
  cases o with
  | ret e =>
    cases e with
    | some e => rfl
    | none =>
      simp only []
      cases forwardHelper.forward2 s { st0.r with Group := some s.id } with
      | ret bc =>
        cases bc with
        | none => rfl
        | some bc => simp [migrates_append, migrates]
      | panics => rfl
      | wait => rfl
  | panics => rfl
  | wait => rfl

/-- C16. Synchronous strategy, slot with a primary backend. When the slot has a
migration source and the hash key is not empty, exactly one migrate sub-request
is issued: the five bulk strings `SLOTSMGRTTAGONE`, host of the primary, port of
the primary, `3000`, hash key, pushed to the master connection of the
migration-source pool looked up with the database and seed of the client
request. When the migration source is absent or the hash key is empty, no
migrate sub-request is issued and the request is routed at once: it is pushed
to the connection chosen by `forward2`. -/
theorem forwardSync_migrate_command (s : Slot) (hkey : Bytes) (done : Option Completion)
    (st : State) (backend : sharedBackendConn) (hb : s.backend = some backend) :
    (∀ migrate c, s.migrate = some migrate → hkey ≠ [] →
      migrate.BackendConn st.r.Database st.r.Seed16 true = some c →
      migrates (forwardSync.Forward s hkey done st).2.trace =
        migrates st.trace ++ [(c,
          [redis.NewBulkBytes SLOTSMGRTTAGONE, redis.NewBulkBytes backend.host,
            redis.NewBulkBytes backend.port, redis.NewBulkBytes timeout3000,
            redis.NewBulkBytes hkey])]) ∧
    ((s.migrate = none ∨ hkey = []) →
      migrates (forwardSync.Forward s hkey done st).2.trace = migrates st.trace ∧
      ∀ bc, forwardHelper.forward2 s { st.r with Group := some s.id } =
          Outcome.ret (some bc) →
        forwardSync.Forward s hkey done st =
          (Outcome.ret none,
            { r := { st.r with Group := some s.id }
              refs := st.refs + 1
              trace := st.trace ++ [Event.forward bc { st.r with Group := some s.id }] })) := by
  have hbn : s.backend.isNone = false := by rw [hb]; rfl
  constructor
  · intro migrate c hm hk hc
    have hlen : hkey.length ≠ 0 := fun h => hk (List.length_eq_zero.mp h)
    obtain ⟨o, ho⟩ := slotsmgrt_issued s hkey st.r.Database st.r.Seed16 done st backend migrate
      c hb hm hc
    have hcond : (s.migrate.isSome && decide (hkey.length ≠ 0)) = true := by simp [hm, hlen]
    rw [forwardSync_Forward_migrates s hkey done st o _ (by rw [if_pos hcond]; exact ho) hbn]
    simp [migrates_append, migrates]
  · intro h
    have hcond : (s.migrate.isSome && decide (hkey.length ≠ 0)) = false := by
      rcases h with h | h
      · simp [h]
      · simp [h]
    constructor
    · exact forwardSync_Forward_migrates s hkey done st (Outcome.ret none) st
        (by rw [if_neg (by rw [hcond]; simp)]) hbn
    · intro bc hbc
      unfold forwardSync.Forward forwardSync.process
      simp only [hbn, hcond, Bool.false_eq_true, ↓reduceIte, hbc]

theorem forwardSync_migrate_command_witness :
    sampleSlot.backend = some (samplePool 1) ∧ sampleSlot.migrate = some (samplePool 2) ∧
    sampleKey ≠ [] ∧
    (samplePool 2).BackendConn sampleState.r.Database sampleState.r.Seed16 true =
      some { id := 2 } ∧
    migrates (forwardSync.Forward sampleSlot sampleKey
        (some { Err := none, Resp := some (redis.Resp.mk redis.RespType.int [49] []) })
        sampleState).2.trace =
      migrates sampleState.trace ++ [({ id := 2 },
        [redis.NewBulkBytes SLOTSMGRTTAGONE, redis.NewBulkBytes (samplePool 1).host,
          redis.NewBulkBytes (samplePool 1).port, redis.NewBulkBytes timeout3000,
          redis.NewBulkBytes sampleKey])] ∧
    sampleSlotSteady.backend = some (samplePool 1) ∧ sampleSlotSteady.migrate = none ∧
    migrates (forwardSync.Forward sampleSlotSteady sampleKey none sampleState).2.trace =
      migrates sampleState.trace :=
  ⟨rfl, rfl, by decide, rfl,
    (forwardSync_migrate_command sampleSlot sampleKey
      (some { Err := none, Resp := some (redis.Resp.mk redis.RespType.int [49] []) })
      sampleState (samplePool 1) rfl).1 (samplePool 2) { id := 2 } rfl (by decide) rfl,
    rfl, rfl,
    ((forwardSync_migrate_command sampleSlotSteady sampleKey none sampleState (samplePool 1)
      rfl).2 (Or.inl rfl)).1⟩

/-! ## Properties of the task runner -/

theorem taskRunner.handleTask_some (tr : taskRunner) (r : PipelineRequest) (flush : Bool)
    (now : Nat) (io : ConnResult) :
    (tr.handleTask (some r) flush now io).1.tasks = tr.tasks ++ [r] ∧
    (tr.handleTask (some r) flush now io).1.backQ = tr.backQ := by
  unfold taskRunner.handleTask taskRunner.dowrite
  cases io.bytes <;> cases io.write <;> cases flush <;> simp

theorem taskRunner.handleResponse_frame (tr : taskRunner) (p : parser.Resp)
    (req : PipelineRequest) (rest : List PipelineRequest) (h : tr.tasks = req :: rest) :
    tr.handleResponse (OutValue.resp p) =
      ({ tr with
          backQ := tr.backQ ++ [(req.backQ, { ctx := req, resp := some p, err := none })]
          tasks := rest },
        Outcome.ret none) := by
  unfold taskRunner.handleResponse
  simp [h]

theorem taskRunner.run_correlates (ops : List TaskOp) :
    ∀ tr : taskRunner, neverEmptyFrame tr.tasks.length ops = true →
      (tr.run ops).1.backQ = tr.backQ ++
        List.zipWith (fun r p => (r.backQ, ({ ctx := r, resp := some p, err := none } :
          PipelineResponse))) (tr.tasks ++ tasksOf ops) (framesOf ops) ∧
      (tr.run ops).1.tasks = (tr.tasks ++ tasksOf ops).drop (framesOf ops).length ∧
      (framesOf ops).length ≤ (tr.tasks ++ tasksOf ops).length := by
  induction ops with
  | nil => intro tr _; simp [taskRunner.run, tasksOf, framesOf]
  | cons op ops ih =>
    intro tr hne
    cases op with
    | task r flush now io =>
      obtain ⟨h1, h2⟩ := taskRunner.handleTask_some tr r flush now io
      have := ih (tr.handleTask (some r) flush now io).1
        (by rw [h1]; simpa [neverEmptyFrame] using hne)
      rw [h1, h2] at this
      simp only [taskRunner.run, tasksOf, framesOf]
      simpa using this
    | frame p =>
      cases ht : tr.tasks with
      | nil => rw [ht] at hne; simp [neverEmptyFrame] at hne
      | cons req rest =>
        have h := taskRunner.handleResponse_frame tr p req rest ht
        rw [ht] at hne
        have := ih (tr.handleResponse (OutValue.resp p)).1
          (by rw [h]; simpa [neverEmptyFrame] using hne)
        rw [h] at this
        simp only [taskRunner.run, tasksOf, framesOf]
        rw [h]
        simp only [List.cons_append, List.zipWith_cons_cons, List.length_cons,
          List.drop_succ_cons]
        have h3 : (framesOf ops).length ≤ (rest ++ tasksOf ops).length := this.2.2
        refine ⟨?_, this.2.1, by omega⟩
        rw [this.1]
        simp
    | fail e =>
      have h : tr.handleResponse (OutValue.error e) = (tr, Outcome.ret (some e)) := rfl
      have := ih tr (by simpa [neverEmptyFrame] using hne)
      simp only [taskRunner.run, tasksOf, framesOf]
      rw [h]
      exact this

/-- C17. Response correlation in the task runner is first in, first out, and no
reply is lost. In every run of `handleTask` and `handleResponse` calls in which
no frame arrives while nothing is outstanding, the i-th frame is sent, with nil
error, on the back queue of the i-th request of the sequence "outstanding at the
start, then written", and nothing else is sent; afterwards the outstanding list
is what is left of that sequence, in order. An error passed to `handleResponse`
is returned and leaves the task runner as it was. -/
theorem taskRunner.response_correlation (tr : taskRunner) (ops : List TaskOp)
    (hne : neverEmptyFrame tr.tasks.length ops = true) :
    (tr.run ops).1.backQ = tr.backQ ++
      List.zipWith (fun r p => (r.backQ, ({ ctx := r, resp := some p, err := none } :
        PipelineResponse))) (tr.tasks ++ tasksOf ops) (framesOf ops) ∧
    (tr.run ops).1.tasks = (tr.tasks ++ tasksOf ops).drop (framesOf ops).length ∧
    (framesOf ops).length ≤ (tr.tasks ++ tasksOf ops).length ∧
    (∀ (t : taskRunner) (e : Error),
      t.handleResponse (OutValue.error e) = (t, Outcome.ret (some e))) := by
  obtain ⟨h1, h2, h3⟩ := taskRunner.run_correlates ops tr hne
  exact ⟨h1, h2, h3, fun _ _ => rfl⟩

theorem taskRunner.response_correlation_witness :
    neverEmptyFrame sampleRunner.tasks.length sampleTaskOps = true ∧
    (sampleRunner.run sampleTaskOps).1.backQ = sampleRunner.backQ ++
      List.zipWith (fun r p => (r.backQ, ({ ctx := r, resp := some p, err := none } :
        PipelineResponse))) (sampleRunner.tasks ++ tasksOf sampleTaskOps)
        (framesOf sampleTaskOps) ∧
    (sampleRunner.run sampleTaskOps).1.tasks =
      (sampleRunner.tasks ++ tasksOf sampleTaskOps).drop (framesOf sampleTaskOps).length :=
  ⟨rfl, (taskRunner.response_correlation sampleRunner sampleTaskOps rfl).1,
    (taskRunner.response_correlation sampleRunner sampleTaskOps rfl).2.1⟩

theorem taskRunner.cleanupOutgoingTasksLoop_spec (err : Option Error)
    (es : List PipelineRequest) :
    ∀ tr : taskRunner,
      (taskRunner.cleanupOutgoingTasksLoop err es tr).tasks = tr.tasks.drop es.length ∧
      (taskRunner.cleanupOutgoingTasksLoop err es tr).backQ = tr.backQ ++
        es.map (fun r => (r.backQ, ({ ctx := r, resp := none, err := err } :
          PipelineResponse))) ∧
      (taskRunner.cleanupOutgoingTasksLoop err es tr).written = tr.written ∧
      (taskRunner.cleanupOutgoingTasksLoop err es tr).closed = tr.closed ∧
      (taskRunner.cleanupOutgoingTasksLoop err es tr).latest = tr.latest := by
  induction es with
  | nil => intro tr; simp [taskRunner.cleanupOutgoingTasksLoop]
  | cons req next ih =>
    intro tr
    obtain ⟨h1, h2, h3, h4, h5⟩ := ih
      { tr with
        backQ := tr.backQ ++ [(req.backQ, { ctx := req, resp := none, err := err })]
        tasks := tr.tasks.tail }
    simp only [taskRunner.cleanupOutgoingTasksLoop]
    refine ⟨?_, ?_, h3, h4, h5⟩
    · rw [h1]
      simp [List.drop_tail]
    · rw [h2]
      simp

/-- C18. Failure completion in the task runner. For every outstanding list
`r1..rn` and every error `e`, `cleanupOutgoingTasks(e)` sends on the back queue
of each `r_i` exactly one response, carrying `e` and no frame, oldest first,
sends nothing else, and leaves the outstanding list empty. -/
theorem taskRunner.cleanupOutgoingTasks_completes (tr : taskRunner) (err : Option Error) :
    (tr.cleanupOutgoingTasks err).tasks = [] ∧
    (tr.cleanupOutgoingTasks err).backQ = tr.backQ ++
      tr.tasks.map (fun r => (r.backQ, ({ ctx := r, resp := none, err := err } :
        PipelineResponse))) ∧
    (tr.cleanupOutgoingTasks err).written = tr.written ∧
    (tr.cleanupOutgoingTasks err).closed = tr.closed := by
  obtain ⟨h1, h2, h3, h4, _⟩ := taskRunner.cleanupOutgoingTasksLoop_spec err tr.tasks tr
  unfold taskRunner.cleanupOutgoingTasks
  exact ⟨by rw [h1]; simp, h2, h3, h4⟩

/-- C20 fails on the code. With nothing outstanding, `handleResponse` on a
decoded frame panics: `tr.tasks.Front()` is nil and `e.Value` dereferences it.
The state is reached by the handlers themselves: a request is written, the
outstanding list is cleaned up after a failure, and the late frame arrives. -/
theorem taskRunner.handleResponse_empty_panics :
    (sampleRunner.handleResponse (OutValue.resp sampleOK)).2 = Outcome.panics ∧
    (((sampleRunner.handleTask (some (samplePipelineRequest 1 10)) true 1 sampleConnOK).1
      |>.cleanupOutgoingTasks (some (Error.other 1))).handleResponse
        (OutValue.resp sampleOK)).2 = Outcome.panics ∧
    ∀ tr : taskRunner, ∀ p : parser.Resp, tr.tasks = [] →
      (tr.handleResponse (OutValue.resp p)).2 = Outcome.panics := by
  refine ⟨rfl, rfl, ?_⟩
  intro tr p h
  simp [taskRunner.handleResponse, h]

end Codis
